import Mathlib

set_option maxHeartbeats 1000000

set_option maxRecDepth 16384

/- =========================================================================
   Shallow embedding of the tenure block streaming protocol
   (stackslib/src/net/api/gettenure.rs) and of the event dispatcher
   (testnet/stacks-node/src/event_dispatcher.rs) of stacks-core.

   Block ids, consensus hashes, contract keys and asset identifiers are
   opaque identifiers in the claims; they are embedded as naturals.
   Serialized bytes are embedded as lists of naturals.
   ========================================================================= -/

/- ----------------------- Tenure stream data model ----------------------- -/

abbrev BlockId := Nat

abbrev CHash := Nat

/-- Nakamoto block header: the fields read by the tenure walk. -/
structure NakamotoBlockHeader where
  consensus_hash : CHash
  block_id : BlockId
  parent_block_id : BlockId
deriving DecidableEq

/-- Header of either format; `as_stacks_nakamoto` succeeds only on the newer
(Nakamoto) block format, mirroring `StacksBlockHeaderTypes::as_stacks_nakamoto`. -/
inductive AnchoredHeader where
  | nakamoto (h : NakamotoBlockHeader)
  | epoch2
deriving DecidableEq

def AnchoredHeader.as_stacks_nakamoto : AnchoredHeader → Option NakamotoBlockHeader
  | .nakamoto h => some h
  | .epoch2 => none

/-- A Nakamoto block: its header plus an opaque payload. -/
structure NakamotoBlock where
  header : NakamotoBlockHeader
  txs : List Nat
deriving DecidableEq

/-- Modelled from the spec: the storage collaborator of the tenure stream
(`NakamotoChainState::get_block_header_nakamoto`, the staging-blocks DB with
`get_nakamoto_block_size`, the block codec, and the configured maximum message
size `MAX_MESSAGE_LEN`), which live outside the given sources.  The spec
exposes it as a narrow read interface: fetch header by id, fetch the raw
stored block (whose serialized size is `get_nakamoto_block_size`) by id. -/
structure ChainState where
  headers : BlockId → Option AnchoredHeader
  staging : BlockId → Option NakamotoBlock
  ser : NakamotoBlock → List Nat
  max_message_len : Nat

/-- u64 upper bound (2 ^ 64 - 1), for `u64::saturating_add`. -/
def U64_MAX : Nat := 18446744073709551615

/-- `u64::saturating_add` on the Nat embedding. -/
def saturating_add (a b : Nat) : Nat := min (a + b) U64_MAX

inductive ChainError where
  | NoSuchBlockError
  | DBError
deriving DecidableEq

def ChainError.describe : ChainError → String
  | .NoSuchBlockError => ("NoSuchBlockError")
  | .DBError => ("DBError")

/-- Modelled from the spec: `NakamotoBlockStream` (getblock_v3.rs, not among
the given sources) — the inner single-block byte generator.  It holds the
current block id, the tenure consensus hash, the parent block id, and
`total_bytes`, the number of bytes of the current block already emitted. -/
structure NakamotoBlockStream where
  block_id : BlockId
  consensus_hash : CHash
  parent_block_id : BlockId
  total_bytes : Nat
deriving DecidableEq

/-- Modelled from the spec: resetting the inner generator to serialize the
parent block (`NakamotoBlockStream::reset`). -/
def NakamotoBlockStream.reset (bs : NakamotoBlockStream)
    (block_id parent_block_id : BlockId) : NakamotoBlockStream :=
  { bs with block_id := block_id, parent_block_id := parent_block_id, total_bytes := 0 }

/-- Modelled from the spec: one pull on the inner single-block generator.
"Each pull from the generator first drains any remaining bytes of the block
currently loaded"; the generator may return more bytes than the chunk-size
hint, so the model emits all remaining bytes of the current block at once. -/
def NakamotoBlockStream.generate_next_chunk (cs : ChainState)
    (bs : NakamotoBlockStream) : Except String (List Nat × NakamotoBlockStream) :=
  match cs.staging bs.block_id with
  | none => .error ("No such block")
  | some blk =>
    .ok ((cs.ser blk).drop bs.total_bytes, { bs with total_bytes := (cs.ser blk).length })

/-- Tenure stream state (`NakamotoTenureStream` in gettenure.rs): the inner
block stream plus the running total of bytes already sent. -/
structure NakamotoTenureStream where
  block_stream : NakamotoBlockStream
  total_sent : Nat
deriving DecidableEq

/-- `NakamotoTenureStream::new`: fresh stream on the start block; no budget
check is performed here. -/
def NakamotoTenureStream.new (block_id : BlockId) (consensus_hash : CHash)
    (parent_block_id : BlockId) : NakamotoTenureStream :=
  { block_stream := { block_id := block_id, consensus_hash := consensus_hash,
                      parent_block_id := parent_block_id, total_bytes := 0 },
    total_sent := 0 }

/-- `NakamotoTenureStream::next_block`: advance to the parent of the block we
last streamed.  Ok true if the parent fits in the stream, Ok false if the
stream must end (epoch2 parent, tenure boundary, or budget exhausted), error
on a missing block row. -/
def NakamotoTenureStream.next_block (cs : ChainState) (s : NakamotoTenureStream) :
    Except ChainError (Bool × NakamotoTenureStream) :=
  match cs.headers s.block_stream.parent_block_id with
  | none => .error .NoSuchBlockError
  | some parent_header =>
    match parent_header.as_stacks_nakamoto with
    | none => .ok (false, s)
    | some parent_nakamoto_header =>
      if parent_nakamoto_header.consensus_hash ≠ s.block_stream.consensus_hash then
        .ok (false, s)
      else
        match cs.staging s.block_stream.parent_block_id with
        | none => .error .NoSuchBlockError
        | some parent_blk =>
          let parent_size := (cs.ser parent_blk).length
          let new_total_sent := saturating_add s.total_sent s.block_stream.total_bytes
          if cs.max_message_len < saturating_add new_total_sent parent_size then
            .ok (false, { s with total_sent := new_total_sent })
          else
            .ok (true, { total_sent := new_total_sent,
                         block_stream := s.block_stream.reset
                           parent_nakamoto_header.block_id
                           parent_nakamoto_header.parent_block_id })

/-- `HttpChunkGenerator::generate_next_chunk` for `NakamotoTenureStream`:
drain the current block; once exhausted, try to advance to the parent and, if
the stream continues, emit the parent block's first chunk.  An empty chunk
with no error signals end of stream. -/
def NakamotoTenureStream.generate_next_chunk (cs : ChainState)
    (s : NakamotoTenureStream) : Except String (List Nat × NakamotoTenureStream) :=
  match s.block_stream.generate_next_chunk cs with
  | .error e => .error e
  | .ok (next_block_chunk, bs1) =>
    if 0 < next_block_chunk.length then
      .ok (next_block_chunk, { s with block_stream := bs1 })
    else
      match NakamotoTenureStream.next_block cs { s with block_stream := bs1 } with
      | .error e => .error (("Failed to load next block in this tenure: ") ++ e.describe)
      | .ok (send_more, s2) =>
        if send_more then
          match s2.block_stream.generate_next_chunk cs with
          | .error e => .error e
          | .ok (chunk, bs3) => .ok (chunk, { s2 with block_stream := bs3 })
        else
          .ok ([], s2)

/-- Modelled from the spec: the HTTP layer repeatedly pulls chunks from the
generator and stops at the first empty chunk ("an empty return with no error
signals end of stream").  Fuel bounds the number of pulls. -/
def runTenureStream (cs : ChainState) : Nat → NakamotoTenureStream → Except String (List (List Nat))
  | 0, _ => .error ("out of fuel")
  | fuel + 1, s =>
    match s.generate_next_chunk cs with
    | .error e => .error e
    | .ok (chunk, s1) =>
      if chunk.isEmpty then .ok []
      else
        match runTenureStream cs fuel s1 with
        | .error e => .error e
        | .ok chunks => .ok (chunk :: chunks)

/-- Mark the current block as fully streamed: the inner generator's
`total_bytes` equals the stored size of the current block. -/
def NakamotoTenureStream.drainCurrent (cs : ChainState) (s : NakamotoTenureStream)
    (blk : NakamotoBlock) : NakamotoTenureStream :=
  { s with block_stream := { s.block_stream with total_bytes := (cs.ser blk).length } }

/-- Reference walk of the parent chain, from a fully-streamed current block:
the list of further blocks the stream will emit, obtained by iterating
`next_block` directly against the storage collaborator. -/
def tenureWalkRest (cs : ChainState) : Nat → NakamotoTenureStream → Except String (List NakamotoBlock)
  | 0, _ => .error ("out of fuel")
  | fuel + 1, s =>
    match NakamotoTenureStream.next_block cs s with
    | .error e => .error (("Failed to load next block in this tenure: ") ++ e.describe)
    | .ok (false, _) => .ok []
    | .ok (true, s2) =>
      match cs.staging s2.block_stream.block_id with
      | none => .error ("No such block")
      | some blk =>
        match tenureWalkRest cs fuel (s2.drainCurrent cs blk) with
        | .error e => .error e
        | .ok blks => .ok (blk :: blks)

/-- Reference walk of the whole stream: the start block followed by its
same-tenure ancestors, in child-to-ancestor order. -/
def tenureWalk (cs : ChainState) (fuel : Nat) (s : NakamotoTenureStream) :
    Except String (List NakamotoBlock) :=
  match cs.staging s.block_stream.block_id with
  | none => .error ("No such block")
  | some blk =>
    match tenureWalkRest cs fuel (s.drainCurrent cs blk) with
    | .error e => .error e
    | .ok blks => .ok (blk :: blks)

/-- `StacksHttpResponse::decode_nakamoto_tenure`: repeatedly deserialize one
Nakamoto block from the front of the remaining bytes until no bytes remain.
The deserializer is the external codec (`NakamotoBlock::consensus_deserialize`);
fuel bounds the number of loop iterations. -/
def decode_nakamoto_tenure (deser : List Nat → Option (NakamotoBlock × List Nat)) :
    Nat → List Nat → Option (List NakamotoBlock)
  | _, [] => some []
  | 0, _ :: _ => none
  | fuel + 1, b :: rest =>
    match deser (b :: rest) with
    | none => none
    | some (blk, rest2) =>
      match decode_nakamoto_tenure deser fuel rest2 with
      | none => none
      | some blks => some (blk :: blks)

/-- Number of further blocks (beyond the start block) that fit in the
configured budget: blocks are taken while the running prefix sum of sizes
stays within the budget. -/
def budgetTake (max_len : Nat) : Nat → List Nat → Nat
  | _, [] => 0
  | total, s :: rest =>
    if max_len < total + s then 0 else 1 + budgetTake max_len (total + s) rest

/-- Look up a block of a concrete chain description by its block id. -/
def lookupBlock (blocks : List NakamotoBlock) (bid : BlockId) : Option NakamotoBlock :=
  blocks.find? (fun b => b.header.block_id == bid)

/-- Chain state induced by a concrete list of blocks (child-to-ancestor
order): headers and staging DB both answer by block id. -/
def chainState (ser : NakamotoBlock → List Nat) (blocks : List NakamotoBlock)
    (max_len : Nat) : ChainState :=
  { headers := fun bid => (lookupBlock blocks bid).map (fun b => .nakamoto b.header),
    staging := fun bid => lookupBlock blocks bid,
    ser := ser,
    max_message_len := max_len }

/-- Links in the parent chain: each block's parent id is the next block's id. -/
abbrev parentLinked (a b : NakamotoBlock) : Prop :=
  a.header.parent_block_id = b.header.block_id

/- ----------------------- Event dispatcher data model --------------------- -/

/-- The four STX event variants (`STXEventType`). -/
inductive STXEventType where
  | stx_transfer_event
  | stx_mint_event
  | stx_burn_event
  | stx_lock_event
deriving DecidableEq

/-- NFT event variants, each keyed by an asset identifier (`NFTEventType`). -/
inductive NFTEventType where
  | nft_transfer_event (asset_identifier : Nat)
  | nft_mint_event (asset_identifier : Nat)
  | nft_burn_event (asset_identifier : Nat)
deriving DecidableEq

/-- FT event variants, each keyed by an asset identifier (`FTEventType`). -/
inductive FTEventType where
  | ft_transfer_event (asset_identifier : Nat)
  | ft_mint_event (asset_identifier : Nat)
  | ft_burn_event (asset_identifier : Nat)
deriving DecidableEq

/-- `StacksTransactionEvent`: the topic-discriminating shape of a chain event.
Contract-event keys and asset identifiers are embedded as naturals. -/
inductive StacksTransactionEvent where
  | SmartContractEvent (key : Nat)
  | STXEvent (t : STXEventType)
  | NFTEvent (t : NFTEventType)
  | FTEvent (t : FTEventType)
deriving DecidableEq

/-- `StacksTransactionReceipt`: the fields read by the dispatch matrix
builder — transaction id, post-condition-aborted flag, event list. -/
structure StacksTransactionReceipt where
  txid : Nat
  post_condition_aborted : Bool
  events : List StacksTransactionEvent
deriving DecidableEq

/-- `EventDispatcher`: the registered observer list (observers are opaque
endpoints, embedded as naturals) and the subscription registries read by
`create_dispatch_matrix_and_event_vector`.  The keyed registries mirror
`HashMap::get`: `none` when the key has no entry. -/
structure EventDispatcher where
  registered_observers : List Nat
  contract_events_observers_lookup : Nat → Option (Finset Nat)
  assets_observers_lookup : Nat → Option (Finset Nat)
  stx_observers_lookup : Finset Nat
  any_event_observers_lookup : Finset Nat

/-- Insert event index `i` into the matrix rows of the observers in
`observer_indexes`; `j` is the index of the first row of `m`. -/
def matrixInsertFrom (observer_indexes : Finset Nat) (i : Nat) :
    Nat → List (Finset Nat) → List (Finset Nat)
  | _, [] => []
  | j, s :: rest =>
    (if j ∈ observer_indexes then insert i s else s) :: matrixInsertFrom observer_indexes i (j + 1) rest

/-- `for o_i in observer_indexes { dispatch_matrix[o_i].insert(i) }`. -/
def matrixInsert (observer_indexes : Finset Nat) (i : Nat)
    (m : List (Finset Nat)) : List (Finset Nat) :=
  matrixInsertFrom observer_indexes i 0 m

/-- `EventDispatcher::update_dispatch_matrix_if_observer_subscribed`. -/
def EventDispatcher.update_dispatch_matrix_if_observer_subscribed
    (d : EventDispatcher) (asset_identifier : Nat) (event_index : Nat)
    (dispatch_matrix : List (Finset Nat)) : List (Finset Nat) :=
  match d.assets_observers_lookup asset_identifier with
  | some observer_indexes => matrixInsert observer_indexes event_index dispatch_matrix
  | none => dispatch_matrix

/-- The per-event `match` of `create_dispatch_matrix_and_event_vector`:
contract events resolve through the contract-event registry, the four STX
variants through the flat STX set, and the NFT and FT variants through the
asset-keyed registry. -/
def EventDispatcher.update_for_event (d : EventDispatcher)
    (event : StacksTransactionEvent) (i : Nat)
    (dispatch_matrix : List (Finset Nat)) : List (Finset Nat) :=
  match event with
  | .SmartContractEvent key =>
    match d.contract_events_observers_lookup key with
    | some observer_indexes => matrixInsert observer_indexes i dispatch_matrix
    | none => dispatch_matrix
  | .STXEvent _ => matrixInsert d.stx_observers_lookup i dispatch_matrix
  | .NFTEvent (.nft_transfer_event a) =>
    d.update_dispatch_matrix_if_observer_subscribed a i dispatch_matrix
  | .NFTEvent (.nft_mint_event a) =>
    d.update_dispatch_matrix_if_observer_subscribed a i dispatch_matrix
  | .NFTEvent (.nft_burn_event a) =>
    d.update_dispatch_matrix_if_observer_subscribed a i dispatch_matrix
  | .FTEvent (.ft_transfer_event a) =>
    d.update_dispatch_matrix_if_observer_subscribed a i dispatch_matrix
  | .FTEvent (.ft_mint_event a) =>
    d.update_dispatch_matrix_if_observer_subscribed a i dispatch_matrix
  | .FTEvent (.ft_burn_event a) =>
    d.update_dispatch_matrix_if_observer_subscribed a i dispatch_matrix

/-- One iteration of the inner event loop: topic-keyed insertion, push of the
flattened event record, unconditional insertion for every any-event observer,
and increment of the flattened index. -/
def EventDispatcher.dispatch_event (d : EventDispatcher) (committed : Bool)
    (tx_hash : Nat) (event : StacksTransactionEvent)
    (st : List (Finset Nat) × List (Bool × Nat × StacksTransactionEvent) × Nat) :
    List (Finset Nat) × List (Bool × Nat × StacksTransactionEvent) × Nat :=
  (matrixInsert d.any_event_observers_lookup st.2.2 (d.update_for_event event st.2.2 st.1),
   st.2.1 ++ [(committed, tx_hash, event)],
   st.2.2 + 1)

/-- The per-receipt loop of `create_dispatch_matrix_and_event_vector`. -/
def EventDispatcher.dispatch_receipt (d : EventDispatcher)
    (receipt : StacksTransactionReceipt)
    (st : List (Finset Nat) × List (Bool × Nat × StacksTransactionEvent) × Nat) :
    List (Finset Nat) × List (Bool × Nat × StacksTransactionEvent) × Nat :=
  receipt.events.foldl
    (fun st event => d.dispatch_event (!receipt.post_condition_aborted) receipt.txid event st)
    st

/-- `EventDispatcher::create_dispatch_matrix_and_event_vector`: one matrix row
per registered observer (initially empty), filled in a single pass over the
receipts; also returns the flattened event vector. -/
def EventDispatcher.create_dispatch_matrix_and_event_vector (d : EventDispatcher)
    (receipts : List StacksTransactionReceipt) :
    List (Finset Nat) × List (Bool × Nat × StacksTransactionEvent) :=
  let st := receipts.foldl (fun st r => d.dispatch_receipt r st)
    (d.registered_observers.map (fun _ => (∅ : Finset Nat)), [], 0)
  (st.1, st.2.1)

/-- The delivery loop of `EventDispatcher::process_chain_tip`, reduced to the
observable it is claimed about: which observers receive a `new_block` POST,
and with which set of event indices.  The payload construction itself is an
excluded collaborator. -/
def EventDispatcher.process_chain_tip_posts (d : EventDispatcher)
    (receipts : List StacksTransactionReceipt) : List (Nat × Finset Nat) :=
  let dispatch_matrix := (d.create_dispatch_matrix_and_event_vector receipts).1
  if 0 < dispatch_matrix.length then dispatch_matrix.enum else []

/- ----------------------- StackerDB mailbox channel ----------------------- -/

/-- `QualifiedContractIdentifier`, as read by `is_active`: whether the issuer
is the boot address (`is_boot`), and the contract name. -/
structure QualifiedContractIdentifier where
  issuer_boot : Bool
  name : String
deriving DecidableEq

def QualifiedContractIdentifier.is_boot (c : QualifiedContractIdentifier) : Bool :=
  c.issuer_boot

/-- `SIGNERS_NAME`, the well-known protected topic name prefix (external
constant from the boot contracts). -/
def SIGNERS_NAME : String := "signers"

/-- Channel endpoints are modelled by a shared token: the sender and the
receiver of one `channel()` pair carry the same fresh token. -/
abbrev SenderId := Nat

/-- `InnerStackerDBChannel`: the slot contents. -/
structure InnerStackerDBChannel where
  sender : SenderId
  interested_in_signers : Bool
  other_interests : List QualifiedContractIdentifier
deriving DecidableEq

/-- The mutex-guarded single slot of `StackerDBChannel`. -/
abbrev StackerDBChannelState := Option InnerStackerDBChannel

/-- `InnerStackerDBChannel::new_miner_receiver`: a fresh channel pair whose
sender side is interested in the `.signers` chunks and nothing else. -/
def InnerStackerDBChannel.new_miner_receiver (fresh : SenderId) :
    SenderId × InnerStackerDBChannel :=
  (fresh, { sender := fresh, interested_in_signers := true, other_interests := [] })

/-- `StackerDBChannel::register_miner_coordinator`: build a fresh channel
pair, replace the slot contents, and report whether a prior registration was
displaced.  Returns (receiver, replaced_receiver, new slot state). -/
def StackerDBChannel.register_miner_coordinator (st : StackerDBChannelState)
    (fresh : SenderId) : SenderId × Bool × StackerDBChannelState :=
  let p := InnerStackerDBChannel.new_miner_receiver fresh
  (p.1, st.isSome, some p.2)

/-- `StackerDBChannel::replace_receiver`: drop the receiver and clear the
slot unconditionally. -/
def StackerDBChannel.replace_receiver (_receiver : SenderId)
    (_st : StackerDBChannelState) : StackerDBChannelState :=
  none

/-- `StackerDBChannel::is_active`: return a clone of the sender if the slot
holds a registration interested in `stackerdb`, else nothing. -/
def StackerDBChannel.is_active (st : StackerDBChannelState)
    (stackerdb : QualifiedContractIdentifier) : Option SenderId :=
  match st with
  | none => none
  | some sender_info =>
    if sender_info.interested_in_signers && stackerdb.is_boot
        && stackerdb.name.startsWith SIGNERS_NAME then
      some sender_info.sender
    else if stackerdb ∈ sender_info.other_interests then
      some sender_info.sender
    else
      none

/- ----------------------- Transport driver and delivery ------------------- -/

inductive IoErrorKind where
  | WouldBlock
  | OtherKind
deriving DecidableEq

/-- `io::Error`, reduced to its kind and message. -/
structure IoError where
  kind : IoErrorKind
  message : String
deriving DecidableEq

/-- `NetError`, reduced to the cases distinguished by `handle_net_error`:
read and write failures carrying an io error, the engine's receive-timeout,
and everything else carrying its display text. -/
inductive NetError where
  | ReadError (ioe : IoError)
  | WriteError (ioe : IoError)
  | RecvTimeout
  | OtherNetError (description : String)
deriving DecidableEq

/-- `handle_net_error`: convert a NetError into an io::Error. -/
def handle_net_error (e : NetError) (msg : String) : IoError :=
  match e with
  | .ReadError ioe => ioe
  | .WriteError ioe => ioe
  | .RecvTimeout => { kind := .WouldBlock, message := ("recv timeout") }
  | .OtherNetError description =>
    { kind := .OtherKind, message := description ++ (": ") ++ msg }

/-- An HTTP response as seen by the transport driver: its preamble's status
code. -/
structure HttpResponseData where
  status_code : Nat
deriving DecidableEq

/-- `StacksHttpMessage`, reduced to the three shapes step 5 of `send_request`
distinguishes: a well-formed response, an application-level error response
(with the request path), and any other message kind. -/
inductive StacksHttpMessage where
  | Response (data : HttpResponseData)
  | Error (path : String) (response : HttpResponseData)
  | OtherMessage
deriving DecidableEq

/-- Step 5 of `send_request`: classify the decoded message. -/
def classify_http_message (m : StacksHttpMessage) : Except IoError HttpResponseData :=
  match m with
  | .Response response_data => .ok response_data
  | .Error path response =>
    .error { kind := .OtherKind,
             message := ("Request did not succeed (") ++ toString response.status_code
               ++ (" != 200). Path: \x27") ++ path ++ ("\x27") }
  | .OtherMessage =>
    .error { kind := .OtherKind, message := ("Did not receive an HTTP response") }

/-- Modelled from the spec: one `send_request` exchange over an abstract
transport.  The socket driving loops (steps 1-4) are an external non-blocking
engine; their outcome is either a NetError (mapped once by
`handle_net_error`, with no retry) or a decoded message (classified by
step 5). -/
def send_request_model (transport : Except NetError StacksHttpMessage) :
    Except IoError HttpResponseData :=
  match transport with
  | .error e => .error (handle_net_error e ("Failed to receive socket data"))
  | .ok m => classify_http_message m

/-- The fixed retry interval of `EventObserver::send_payload`, milliseconds. -/
def backoff_ms : Nat := 1000

/-- Outcome of one delivery attempt: a decoded response or a transport
failure. -/
inductive AttemptOutcome where
  | ok (response : HttpResponseData)
  | err (msg : String)
deriving DecidableEq

/-- The retry loop of `EventObserver::send_payload`: attempt `k` uses the
endpoint's `k`-th behaviour; on a 200 status the loop returns (number of
requests sent, list of sleeps performed); on any other status or on an error
it sleeps `backoff_ms` and retries.  Fuel bounds the number of attempts the
model can observe; `none` means the loop is still running after `fuel`
attempts. -/
def send_payload_loop (attempts : Nat → AttemptOutcome) :
    Nat → Nat → Option (Nat × List Nat)
  | 0, _ => none
  | fuel + 1, k =>
    match attempts k with
    | .ok response =>
      if response.status_code = 200 then
        some (k + 1, [])
      else
        (send_payload_loop attempts fuel (k + 1)).map (fun p => (p.1, backoff_ms :: p.2))
    | .err _ =>
      (send_payload_loop attempts fuel (k + 1)).map (fun p => (p.1, backoff_ms :: p.2))

/-- `EventObserver::send_payload`, reduced to its delivery/retry behaviour
against an abstract endpoint. -/
def send_payload_model (attempts : Nat → AttemptOutcome) (fuel : Nat) :
    Option (Nat × List Nat) :=
  send_payload_loop attempts fuel 0

/- ----------------------- Derived specification notions ------------------- -/

/-- Attempt `k` against the endpoint succeeds: a decoded response with
status 200. -/
def attemptSucceeds (attempts : Nat → AttemptOutcome) (k : Nat) : Prop :=
  ∃ r, attempts k = .ok r ∧ r.status_code = 200

/-- Observers interested in an event through its topic key (not counting the
any-event wildcard): contract events through the contract-event registry, STX
variants through the flat STX set, NFT and FT variants through the
asset-keyed registry. -/
def EventDispatcher.eventInterestSet (d : EventDispatcher) :
    StacksTransactionEvent → Finset Nat
  | .SmartContractEvent key => (d.contract_events_observers_lookup key).getD ∅
  | .STXEvent _ => d.stx_observers_lookup
  | .NFTEvent (.nft_transfer_event a) => (d.assets_observers_lookup a).getD ∅
  | .NFTEvent (.nft_mint_event a) => (d.assets_observers_lookup a).getD ∅
  | .NFTEvent (.nft_burn_event a) => (d.assets_observers_lookup a).getD ∅
  | .FTEvent (.ft_transfer_event a) => (d.assets_observers_lookup a).getD ∅
  | .FTEvent (.ft_mint_event a) => (d.assets_observers_lookup a).getD ∅
  | .FTEvent (.ft_burn_event a) => (d.assets_observers_lookup a).getD ∅

/-- Observer `o` receives event `e`: keyed topic match, or any-event. -/
abbrev EventDispatcher.observerMatches (d : EventDispatcher) (o : Nat)
    (e : StacksTransactionEvent) : Prop :=
  o ∈ d.eventInterestSet e ∨ o ∈ d.any_event_observers_lookup

/-- The set of flattened indices (numbered from `i0`) of the events of `l`
that observer `o` should receive. -/
def EventDispatcher.matchIdxSet (d : EventDispatcher) (o : Nat) :
    Nat → List (Bool × Nat × StacksTransactionEvent) → Finset Nat
  | _, [] => ∅
  | i0, bte :: rest =>
    (if d.observerMatches o bte.2.2 then {i0} else ∅) ∪ d.matchIdxSet o (i0 + 1) rest

/-- A single subscription topic, as in claim C4: a contract-event key, an
asset identifier, or the STX-event category. -/
inductive Topic where
  | contractTopic (key : Nat)
  | assetTopic (asset_identifier : Nat)
  | stxTopic
deriving DecidableEq

/-- Whether an event belongs to topic `T`. -/
def StacksTransactionEvent.matchesTopic : StacksTransactionEvent → Topic → Bool
  | .SmartContractEvent key, .contractTopic k => key == k
  | .STXEvent _, .stxTopic => true
  | .NFTEvent (.nft_transfer_event a), .assetTopic b => a == b
  | .NFTEvent (.nft_mint_event a), .assetTopic b => a == b
  | .NFTEvent (.nft_burn_event a), .assetTopic b => a == b
  | .FTEvent (.ft_transfer_event a), .assetTopic b => a == b
  | .FTEvent (.ft_mint_event a), .assetTopic b => a == b
  | .FTEvent (.ft_burn_event a), .assetTopic b => a == b
  | _, _ => false

/-- Observer `o` is subscribed to topic `T` and to nothing else (in
particular not to any-event). -/
def subscribedOnlyTo (d : EventDispatcher) (o : Nat) (T : Topic) : Prop :=
  o ∉ d.any_event_observers_lookup ∧
  (∀ key, o ∈ (d.contract_events_observers_lookup key).getD ∅ ↔ T = .contractTopic key) ∧
  (∀ a, o ∈ (d.assets_observers_lookup a).getD ∅ ↔ T = .assetTopic a) ∧
  (o ∈ d.stx_observers_lookup ↔ T = .stxTopic)

/-- Whether the event at flattened index `i` of the event vector belongs to
topic `T`. -/
def matchesAtTopic (events : List (Bool × Nat × StacksTransactionEvent))
    (T : Topic) (i : Nat) : Bool :=
  match events[i]? with
  | some bte => bte.2.2.matchesTopic T
  | none => false

/-- The dispatch pass over an already-flattened event list. -/
def dispatchFlat (d : EventDispatcher) (l : List (Bool × Nat × StacksTransactionEvent))
    (st : List (Finset Nat) × List (Bool × Nat × StacksTransactionEvent) × Nat) :
    List (Finset Nat) × List (Bool × Nat × StacksTransactionEvent) × Nat :=
  l.foldl (fun st bte => d.dispatch_event bte.1 bte.2.1 bte.2.2 st) st

/-- The flattened event list of a batch of receipts: index = position in the
flattened per-transaction event sequence. -/
def flattenReceiptEvents (receipts : List StacksTransactionReceipt) :
    List (Bool × Nat × StacksTransactionEvent) :=
  (receipts.map (fun r => r.events.map (fun e => (!r.post_condition_aborted, r.txid, e)))).flatten

/- =========================================================================
   Theorems
   ========================================================================= -/

/-- C2: advancing the tenure stream returns the non-error terminal result
Ok(false) — with the stream state untouched, so before any budget
accounting — whenever the parent header exists but is not of the Nakamoto
format, or its consensus hash differs from the stream's tenure consensus
hash, regardless of remaining byte budget. -/
theorem C2_tenure_boundary_termination (cs : ChainState) (s : NakamotoTenureStream)
    (parent_header : AnchoredHeader)
    (hhdr : cs.headers s.block_stream.parent_block_id = some parent_header)
    (hstop : parent_header.as_stacks_nakamoto = none ∨
      ∃ pnh, parent_header.as_stacks_nakamoto = some pnh ∧
        pnh.consensus_hash ≠ s.block_stream.consensus_hash) :
    NakamotoTenureStream.next_block cs s = .ok (false, s) := by
  unfold NakamotoTenureStream.next_block
  rw [hhdr]
  rcases hstop with h | ⟨pnh, h, hne⟩
  · simp [h]
  · simp [h, hne]

/-- Witness for C2 at a concrete chain state whose parent header is an
epoch2 header. -/
theorem C2_tenure_boundary_termination_witness :
    NakamotoTenureStream.next_block
      { headers := fun _ => some .epoch2, staging := fun _ => none,
        ser := fun _ => [], max_message_len := 0 }
      (NakamotoTenureStream.new 0 1 2) =
    .ok (false, NakamotoTenureStream.new 0 1 2) :=
  C2_tenure_boundary_termination _ _ .epoch2 rfl (Or.inl rfl)

/-- C9: `send_request` classification — a well-formed response is returned
as success; an application-level error response yields a failure whose
message carries the HTTP status code and the request path; any other message
kind yields a protocol-violation failure; read and write failures surface as
the underlying io error, a receive-timeout surfaces as a would-block kind,
and every other engine error surfaces as a generic failure with a
descriptive message; a transport error is mapped exactly once (no retry). -/
theorem C9_send_request_classification :
    (∀ r, send_request_model (.ok (.Response r)) = .ok r) ∧
    (∀ path response, send_request_model (.ok (.Error path response)) =
      .error { kind := .OtherKind,
               message := ("Request did not succeed (") ++ toString response.status_code
                 ++ (" != 200). Path: \x27") ++ path ++ ("\x27") }) ∧
    (send_request_model (.ok .OtherMessage) =
      .error { kind := .OtherKind, message := ("Did not receive an HTTP response") }) ∧
    (∀ ioe msg, handle_net_error (.ReadError ioe) msg = ioe) ∧
    (∀ ioe msg, handle_net_error (.WriteError ioe) msg = ioe) ∧
    (∀ msg, handle_net_error .RecvTimeout msg =
      { kind := .WouldBlock, message := ("recv timeout") }) ∧
    (∀ description msg, handle_net_error (.OtherNetError description) msg =
      { kind := .OtherKind, message := description ++ (": ") ++ msg }) ∧
    (∀ e, send_request_model (.error e) =
      .error (handle_net_error e ("Failed to receive socket data"))) :=
  ⟨fun _ => rfl, fun _ _ => rfl, rfl, fun _ _ => rfl, fun _ _ => rfl,
   fun _ => rfl, fun _ _ => rfl, fun _ => rfl⟩

/-- C7: after a second registration the slot holds exactly the sender paired
with the second receiver (so the displaced first receiver's token no longer
matches the stored sender), the second call reports that a prior registration
was displaced, and after `replace_receiver` the slot is cleared so
`is_active` returns nothing for every contract identifier. -/
theorem C7_mailbox_single_owner (st : StackerDBChannelState)
    (fresh1 fresh2 : SenderId) (hne : fresh1 ≠ fresh2)
    (receiver : SenderId) (st2 : StackerDBChannelState)
    (c : QualifiedContractIdentifier) :
    (StackerDBChannel.register_miner_coordinator
        ((StackerDBChannel.register_miner_coordinator st fresh1).2.2) fresh2).2.2 =
      some { sender := fresh2, interested_in_signers := true, other_interests := [] } ∧
    (StackerDBChannel.register_miner_coordinator
        ((StackerDBChannel.register_miner_coordinator st fresh1).2.2) fresh2).1 = fresh2 ∧
    fresh2 ≠ (StackerDBChannel.register_miner_coordinator st fresh1).1 ∧
    (StackerDBChannel.register_miner_coordinator
        ((StackerDBChannel.register_miner_coordinator st fresh1).2.2) fresh2).2.1 = true ∧
    StackerDBChannel.is_active (StackerDBChannel.replace_receiver receiver st2) c = none := by
  refine ⟨rfl, rfl, ?_, rfl, rfl⟩
  simp [StackerDBChannel.register_miner_coordinator, InnerStackerDBChannel.new_miner_receiver]
  exact fun h => hne h.symm

/-- Witness for C7 at concrete channel states and tokens. -/
theorem C7_mailbox_single_owner_witness :
    (0 : Nat) ≠ 1 ∧
    ((StackerDBChannel.register_miner_coordinator
        ((StackerDBChannel.register_miner_coordinator none 0).2.2) 1).2.2 =
      some { sender := 1, interested_in_signers := true, other_interests := [] } ∧
    (StackerDBChannel.register_miner_coordinator
        ((StackerDBChannel.register_miner_coordinator none 0).2.2) 1).1 = 1 ∧
    (1 : Nat) ≠ (StackerDBChannel.register_miner_coordinator none 0).1 ∧
    (StackerDBChannel.register_miner_coordinator
        ((StackerDBChannel.register_miner_coordinator none 0).2.2) 1).2.1 = true ∧
    StackerDBChannel.is_active
      (StackerDBChannel.replace_receiver 0
        (some { sender := 5, interested_in_signers := true, other_interests := [] }))
      { issuer_boot := true, name := ("signers") } = none) :=
  ⟨by decide,
   C7_mailbox_single_owner none 0 1 (by decide) 0
     (some { sender := 5, interested_in_signers := true, other_interests := [] })
     { issuer_boot := true, name := ("signers") }⟩

/-- If none of the next `n` attempts succeeds, the retry loop is still
running after `n` attempts. -/
theorem send_payload_loop_none (attempts : Nat → AttemptOutcome) :
    ∀ (n k0 : Nat),
    (∀ j, k0 ≤ j → j < k0 + n → ¬ attemptSucceeds attempts j) →
    send_payload_loop attempts n k0 = none := by
  intro n
  induction n with
  | zero => intro k0 _; rfl
  | succ n ih =>
    intro k0 h
    have hrest := ih (k0 + 1) (fun j hj1 hj2 => h j (by omega) (by omega))
    cases ha : attempts k0 with
    | ok r =>
      have h200 : ¬ (r.status_code = 200) := fun hc => h k0 le_rfl (by omega) ⟨r, ha, hc⟩
      simp [send_payload_loop, ha, h200, hrest]
    | err m =>
      simp [send_payload_loop, ha, hrest]

/-- If the first success is at attempt `k0 + k`, the retry loop sends exactly
`k0 + k + 1` requests in total and sleeps the fixed interval after each of
the `k` failed attempts it performed. -/
theorem send_payload_loop_success (attempts : Nat → AttemptOutcome) :
    ∀ (k fuel k0 : Nat),
    (∀ j, k0 ≤ j → j < k0 + k → ¬ attemptSucceeds attempts j) →
    attemptSucceeds attempts (k0 + k) →
    k + 1 ≤ fuel →
    send_payload_loop attempts fuel k0 = some (k0 + k + 1, List.replicate k backoff_ms) := by
  intro k
  induction k with
  | zero =>
    intro fuel k0 _ hsucc hfuel
    obtain ⟨r, ha, h200⟩ := hsucc
    match fuel, hfuel with
    | f + 1, _ =>
      rw [Nat.add_zero] at ha
      simp [send_payload_loop, ha, h200]
  | succ k ih =>
    intro fuel k0 hfail hsucc hfuel
    match fuel, hfuel with
    | f + 1, hf =>
      have hk0 : ¬ attemptSucceeds attempts k0 := hfail k0 le_rfl (by omega)
      have hrest := ih f (k0 + 1)
        (fun j hj1 hj2 => hfail j (by omega) (by omega))
        (by have : k0 + 1 + k = k0 + (k + 1) := by omega
            rw [this]; exact hsucc)
        (by omega)
      have harith : k0 + 1 + k + 1 = k0 + (k + 1) + 1 := by omega
      cases ha : attempts k0 with
      | ok r =>
        have h200 : ¬ (r.status_code = 200) := fun hc => hk0 ⟨r, ha, hc⟩
        simp [send_payload_loop, ha, h200, hrest, harith, List.replicate_succ]
      | err m =>
        simp [send_payload_loop, ha, hrest, harith, List.replicate_succ]

/-- C6: if the endpoint answers 500 on the first attempt and 200 on the
second, exactly two requests are sent and the call returns after the second;
in general the loop returns exactly at the first attempt with status 200,
sleeping the fixed 1000 ms interval after each failed attempt (any non-200
status or transport failure), with no retry limit: as long as no attempt has
succeeded, the loop is still running. -/
theorem C6_delivery_retry :
    (∀ (attempts : Nat → AttemptOutcome) (fuel : Nat),
      attempts 0 = .ok { status_code := 500 } →
      attempts 1 = .ok { status_code := 200 } →
      2 ≤ fuel →
      send_payload_model attempts fuel = some (2, [backoff_ms])) ∧
    (∀ (attempts : Nat → AttemptOutcome) (k fuel : Nat),
      (∀ j, j < k → ¬ attemptSucceeds attempts j) →
      attemptSucceeds attempts k →
      k + 1 ≤ fuel →
      send_payload_model attempts fuel = some (k + 1, List.replicate k backoff_ms)) ∧
    (∀ (attempts : Nat → AttemptOutcome) (n : Nat),
      (∀ j, j < n → ¬ attemptSucceeds attempts j) →
      send_payload_model attempts n = none) := by
  refine ⟨?_, ?_, ?_⟩
  · intro attempts fuel h0 h1 hfuel
    have := send_payload_loop_success attempts 1 fuel 0
      (by intro j hj1 hj2
          have hj : j = 0 := by omega
          subst hj
          rintro ⟨r, har, h200⟩
          rw [h0] at har
          cases har
          exact absurd h200 (by decide))
      ⟨{ status_code := 200 }, h1, rfl⟩ hfuel
    simpa [send_payload_model] using this
  · intro attempts k fuel hfail hsucc hfuel
    have := send_payload_loop_success attempts k fuel 0
      (fun j hj1 hj2 => hfail j (by omega)) (by simpa using hsucc) hfuel
    simpa [send_payload_model] using this
  · intro attempts n hfail
    exact send_payload_loop_none attempts n 0 (fun j hj1 hj2 => hfail j (by omega))

/-- Witness for C6 at a concrete endpoint behaviour: 500 on the first
attempt, 200 afterwards. -/
theorem C6_delivery_retry_witness :
    (fun k => if k = 0 then AttemptOutcome.ok { status_code := 500 }
              else AttemptOutcome.ok { status_code := 200 }) 0 =
        .ok { status_code := 500 } ∧
    (fun k => if k = 0 then AttemptOutcome.ok { status_code := 500 }
              else AttemptOutcome.ok { status_code := 200 }) 1 =
        .ok { status_code := 200 } ∧
    send_payload_model
      (fun k => if k = 0 then AttemptOutcome.ok { status_code := 500 }
                else AttemptOutcome.ok { status_code := 200 }) 2 =
      some (2, [backoff_ms]) :=
  ⟨rfl, rfl,
   C6_delivery_retry.1
     (fun k => if k = 0 then AttemptOutcome.ok { status_code := 500 }
               else AttemptOutcome.ok { status_code := 200 }) 2 rfl rfl (by decide)⟩

/-- Inserting an event index into selected rows preserves the matrix shape. -/
theorem matrixInsertFrom_length (os : Finset Nat) (i : Nat) :
    ∀ (m : List (Finset Nat)) (j : Nat), (matrixInsertFrom os i j m).length = m.length := by
  intro m
  induction m with
  | nil => intro j; rfl
  | cons s rest ih => intro j; simp [matrixInsertFrom, ih]

theorem matrixInsert_length (os : Finset Nat) (i : Nat) (m : List (Finset Nat)) :
    (matrixInsert os i m).length = m.length :=
  matrixInsertFrom_length os i m 0

/-- Row `o` of `matrixInsertFrom` starting at row index `j`. -/
theorem matrixInsertFrom_getElem? (os : Finset Nat) (i : Nat) :
    ∀ (m : List (Finset Nat)) (j o : Nat),
    (matrixInsertFrom os i j m)[o]? =
      (m[o]?).map (fun s => if j + o ∈ os then insert i s else s) := by
  intro m
  induction m with
  | nil => intro j o; simp [matrixInsertFrom]
  | cons s rest ih =>
    intro j o
    cases o with
    | zero => simp [matrixInsertFrom]
    | succ o =>
      have h : j + (o + 1) = (j + 1) + o := by omega
      simp [matrixInsertFrom, ih (j + 1) o, h]

theorem matrixInsert_getElem? (os : Finset Nat) (i : Nat)
    (m : List (Finset Nat)) (o : Nat) :
    (matrixInsert os i m)[o]? = (m[o]?).map (fun s => if o ∈ os then insert i s else s) := by
  have := matrixInsertFrom_getElem? os i m 0 o
  simpa [matrixInsert] using this

/-- Row `o` after the per-event topic-keyed update: index `i` is inserted
exactly when `o` is in the event's keyed interest set. -/
theorem update_for_event_getElem? (d : EventDispatcher)
    (e : StacksTransactionEvent) (i : Nat) (m : List (Finset Nat)) (o : Nat) :
    (d.update_for_event e i m)[o]? =
      (m[o]?).map (fun s => if o ∈ d.eventInterestSet e then insert i s else s) := by
  have hnone : (m[o]?).map (fun s => if o ∈ (∅ : Finset Nat) then insert i s else s) = m[o]? := by
    cases m[o]? <;> simp
  cases e with
  | SmartContractEvent key =>
    cases h : d.contract_events_observers_lookup key with
    | none =>
      simp [EventDispatcher.update_for_event, EventDispatcher.eventInterestSet, h, hnone]
    | some os =>
      simp [EventDispatcher.update_for_event, EventDispatcher.eventInterestSet, h,
        matrixInsert_getElem?]
  | STXEvent t =>
    simp [EventDispatcher.update_for_event, EventDispatcher.eventInterestSet,
      matrixInsert_getElem?]
  | NFTEvent t =>
    cases t with
    | nft_transfer_event a =>
      cases h : d.assets_observers_lookup a with
      | none =>
        simp [EventDispatcher.update_for_event, EventDispatcher.eventInterestSet,
          EventDispatcher.update_dispatch_matrix_if_observer_subscribed, h, hnone]
      | some os =>
        simp [EventDispatcher.update_for_event, EventDispatcher.eventInterestSet,
          EventDispatcher.update_dispatch_matrix_if_observer_subscribed, h,
          matrixInsert_getElem?]
    | nft_mint_event a =>
      cases h : d.assets_observers_lookup a with
      | none =>
        simp [EventDispatcher.update_for_event, EventDispatcher.eventInterestSet,
          EventDispatcher.update_dispatch_matrix_if_observer_subscribed, h, hnone]
      | some os =>
        simp [EventDispatcher.update_for_event, EventDispatcher.eventInterestSet,
          EventDispatcher.update_dispatch_matrix_if_observer_subscribed, h,
          matrixInsert_getElem?]
    | nft_burn_event a =>
      cases h : d.assets_observers_lookup a with
      | none =>
        simp [EventDispatcher.update_for_event, EventDispatcher.eventInterestSet,
          EventDispatcher.update_dispatch_matrix_if_observer_subscribed, h, hnone]
      | some os =>
        simp [EventDispatcher.update_for_event, EventDispatcher.eventInterestSet,
          EventDispatcher.update_dispatch_matrix_if_observer_subscribed, h,
          matrixInsert_getElem?]
  | FTEvent t =>
    cases t with
    | ft_transfer_event a =>
      cases h : d.assets_observers_lookup a with
      | none =>
        simp [EventDispatcher.update_for_event, EventDispatcher.eventInterestSet,
          EventDispatcher.update_dispatch_matrix_if_observer_subscribed, h, hnone]
      | some os =>
        simp [EventDispatcher.update_for_event, EventDispatcher.eventInterestSet,
          EventDispatcher.update_dispatch_matrix_if_observer_subscribed, h,
          matrixInsert_getElem?]
    | ft_mint_event a =>
      cases h : d.assets_observers_lookup a with
      | none =>
        simp [EventDispatcher.update_for_event, EventDispatcher.eventInterestSet,
          EventDispatcher.update_dispatch_matrix_if_observer_subscribed, h, hnone]
      | some os =>
        simp [EventDispatcher.update_for_event, EventDispatcher.eventInterestSet,
          EventDispatcher.update_dispatch_matrix_if_observer_subscribed, h,
          matrixInsert_getElem?]
    | ft_burn_event a =>
      cases h : d.assets_observers_lookup a with
      | none =>
        simp [EventDispatcher.update_for_event, EventDispatcher.eventInterestSet,
          EventDispatcher.update_dispatch_matrix_if_observer_subscribed, h, hnone]
      | some os =>
        simp [EventDispatcher.update_for_event, EventDispatcher.eventInterestSet,
          EventDispatcher.update_dispatch_matrix_if_observer_subscribed, h,
          matrixInsert_getElem?]

theorem update_dispatch_matrix_length (d : EventDispatcher) (a i : Nat)
    (m : List (Finset Nat)) :
    (d.update_dispatch_matrix_if_observer_subscribed a i m).length = m.length := by
  cases h : d.assets_observers_lookup a <;>
    simp [EventDispatcher.update_dispatch_matrix_if_observer_subscribed, h, matrixInsert_length]

theorem update_for_event_length (d : EventDispatcher) (e : StacksTransactionEvent)
    (i : Nat) (m : List (Finset Nat)) :
    (d.update_for_event e i m).length = m.length := by
  cases e with
  | SmartContractEvent key =>
    cases h : d.contract_events_observers_lookup key <;>
      simp [EventDispatcher.update_for_event, h, matrixInsert_length]
  | STXEvent t => simp [EventDispatcher.update_for_event, matrixInsert_length]
  | NFTEvent t => cases t <;> simp [EventDispatcher.update_for_event, update_dispatch_matrix_length]
  | FTEvent t => cases t <;> simp [EventDispatcher.update_for_event, update_dispatch_matrix_length]

/-- Row `o` after one full per-event iteration: the event's flattened index
is inserted exactly when the observer matches the event (topic key or
any-event). -/
theorem dispatch_event_matrix_getElem? (d : EventDispatcher) (committed : Bool)
    (tx : Nat) (e : StacksTransactionEvent)
    (m : List (Finset Nat)) (evs : List (Bool × Nat × StacksTransactionEvent))
    (i o : Nat) :
    ((d.dispatch_event committed tx e (m, evs, i)).1)[o]? =
      (m[o]?).map (fun s => if d.observerMatches o e then insert i s else s) := by
  show (matrixInsert d.any_event_observers_lookup i (d.update_for_event e i m))[o]? = _
  rw [matrixInsert_getElem?, update_for_event_getElem?]
  cases hm : m[o]? with
  | none => rfl
  | some s =>
    simp only [Option.map_some']
    congr 1
    by_cases h1 : o ∈ d.eventInterestSet e <;>
      by_cases h2 : o ∈ d.any_event_observers_lookup <;>
        simp [EventDispatcher.observerMatches, h1, h2, Finset.insert_idem]

theorem dispatchFlat_counter (d : EventDispatcher) :
    ∀ (l : List (Bool × Nat × StacksTransactionEvent)) st,
    (dispatchFlat d l st).2.2 = st.2.2 + l.length := by
  intro l
  induction l with
  | nil => intro st; simp [dispatchFlat]
  | cons bte rest ih =>
    intro st
    have h := ih (d.dispatch_event bte.1 bte.2.1 bte.2.2 st)
    simp only [dispatchFlat, List.foldl_cons] at h ⊢
    rw [h]
    show st.2.2 + 1 + rest.length = st.2.2 + (rest.length + 1)
    omega

theorem dispatchFlat_events (d : EventDispatcher) :
    ∀ (l : List (Bool × Nat × StacksTransactionEvent)) st,
    (dispatchFlat d l st).2.1 = st.2.1 ++ l := by
  intro l
  induction l with
  | nil => intro st; simp [dispatchFlat]
  | cons bte rest ih =>
    intro st
    have h := ih (d.dispatch_event bte.1 bte.2.1 bte.2.2 st)
    simp only [dispatchFlat, List.foldl_cons] at h ⊢
    rw [h]
    show (st.2.1 ++ [(bte.1, bte.2.1, bte.2.2)]) ++ rest = st.2.1 ++ bte :: rest
    simp

theorem dispatchFlat_matrix_length (d : EventDispatcher) :
    ∀ (l : List (Bool × Nat × StacksTransactionEvent)) st,
    ((dispatchFlat d l st).1).length = st.1.length := by
  intro l
  induction l with
  | nil => intro st; simp [dispatchFlat]
  | cons bte rest ih =>
    intro st
    have h := ih (d.dispatch_event bte.1 bte.2.1 bte.2.2 st)
    simp only [dispatchFlat, List.foldl_cons] at h ⊢
    rw [h]
    show (matrixInsert _ _ (d.update_for_event _ _ st.1)).length = st.1.length
    rw [matrixInsert_length, update_for_event_length]

/-- Row `o` after dispatching a flat event list starting at index `i`: the
row gains exactly the indices of the events the observer matches. -/
theorem dispatchFlat_matrix_getElem? (d : EventDispatcher) (o : Nat) :
    ∀ (l : List (Bool × Nat × StacksTransactionEvent)) (m : List (Finset Nat))
      (evs : List (Bool × Nat × StacksTransactionEvent)) (i : Nat),
    ((dispatchFlat d l (m, evs, i)).1)[o]? =
      (m[o]?).map (fun s => s ∪ d.matchIdxSet o i l) := by
  intro l
  induction l with
  | nil =>
    intro m evs i
    cases hm : m[o]? <;> simp [dispatchFlat, EventDispatcher.matchIdxSet, hm]
  | cons bte rest ih =>
    intro m evs i
    have step : d.dispatch_event bte.1 bte.2.1 bte.2.2 (m, evs, i) =
        (matrixInsert d.any_event_observers_lookup i (d.update_for_event bte.2.2 i m),
         evs ++ [(bte.1, bte.2.1, bte.2.2)], i + 1) := rfl
    have h := ih (matrixInsert d.any_event_observers_lookup i (d.update_for_event bte.2.2 i m))
      (evs ++ [(bte.1, bte.2.1, bte.2.2)]) (i + 1)
    simp only [dispatchFlat, List.foldl_cons, step] at h ⊢
    rw [h, matrixInsert_getElem?, update_for_event_getElem?]
    cases hm : m[o]? with
    | none => rfl
    | some s =>
      simp only [Option.map_some']
      congr 1
      ext x
      by_cases h1 : o ∈ d.eventInterestSet bte.2.2 <;>
        by_cases h2 : o ∈ d.any_event_observers_lookup <;>
          simp [EventDispatcher.matchIdxSet, EventDispatcher.observerMatches, h1, h2] <;>
          tauto

/-- For an any-event observer the matched indices are the whole index
interval of the batch. -/
theorem mem_matchIdxSet_any (d : EventDispatcher) (o : Nat)
    (hany : o ∈ d.any_event_observers_lookup) :
    ∀ (l : List (Bool × Nat × StacksTransactionEvent)) (i0 x : Nat),
    x ∈ d.matchIdxSet o i0 l ↔ i0 ≤ x ∧ x < i0 + l.length := by
  intro l
  induction l with
  | nil =>
    intro i0 x
    simp only [EventDispatcher.matchIdxSet, Finset.not_mem_empty, List.length_nil]
    constructor
    · intro h; exact absurd h (by simp)
    · omega
  | cons bte rest ih =>
    intro i0 x
    have hm : d.observerMatches o bte.2.2 := Or.inr hany
    simp only [EventDispatcher.matchIdxSet, if_pos hm, Finset.mem_union,
      Finset.mem_singleton, ih (i0 + 1), List.length_cons]
    omega

/-- Membership in the matched-index set, in terms of the event list. -/
theorem mem_matchIdxSet (d : EventDispatcher) (o : Nat) :
    ∀ (l : List (Bool × Nat × StacksTransactionEvent)) (i0 x : Nat),
    x ∈ d.matchIdxSet o i0 l ↔
      ∃ j bte, l[j]? = some bte ∧ x = i0 + j ∧ d.observerMatches o bte.2.2 := by
  intro l
  induction l with
  | nil => intro i0 x; simp [EventDispatcher.matchIdxSet]
  | cons bte rest ih =>
    intro i0 x
    simp only [EventDispatcher.matchIdxSet, Finset.mem_union]
    constructor
    · rintro (hx | hx)
      · by_cases hm : d.observerMatches o bte.2.2
        · rw [if_pos hm, Finset.mem_singleton] at hx
          exact ⟨0, bte, by simp, by omega, hm⟩
        · rw [if_neg hm] at hx
          exact absurd hx (by simp)
      · obtain ⟨j, bte2, hj, hx2, hm⟩ := (ih (i0 + 1) x).1 hx
        exact ⟨j + 1, bte2, by simpa using hj, by omega, hm⟩
    · rintro ⟨j, bte2, hj, hx2, hm⟩
      cases j with
      | zero =>
        left
        have hb : bte2 = bte := by simpa using hj.symm
        subst hb
        rw [if_pos hm, Finset.mem_singleton]
        omega
      | succ j =>
        right
        exact (ih (i0 + 1) x).2 ⟨j, bte2, by simpa using hj, by omega, hm⟩

theorem dispatch_receipt_eq_flat (d : EventDispatcher) (r : StacksTransactionReceipt)
    (st : List (Finset Nat) × List (Bool × Nat × StacksTransactionEvent) × Nat) :
    d.dispatch_receipt r st =
      dispatchFlat d (r.events.map (fun e => (!r.post_condition_aborted, r.txid, e))) st := by
  simp only [EventDispatcher.dispatch_receipt, dispatchFlat, List.foldl_map]

theorem create_eq_flat (d : EventDispatcher) :
    ∀ (receipts : List StacksTransactionReceipt)
      (st : List (Finset Nat) × List (Bool × Nat × StacksTransactionEvent) × Nat),
    receipts.foldl (fun st r => d.dispatch_receipt r st) st =
      dispatchFlat d (flattenReceiptEvents receipts) st := by
  intro receipts
  induction receipts with
  | nil => intro st; simp [flattenReceiptEvents, dispatchFlat]
  | cons r rs ih =>
    intro st
    simp only [List.foldl_cons]
    rw [ih, dispatch_receipt_eq_flat]
    simp [flattenReceiptEvents, dispatchFlat, List.foldl_append]

/-- The event vector output is the flattened receipt event list. -/
theorem create_dispatch_events (d : EventDispatcher)
    (receipts : List StacksTransactionReceipt) :
    (d.create_dispatch_matrix_and_event_vector receipts).2 = flattenReceiptEvents receipts := by
  show (receipts.foldl (fun st r => d.dispatch_receipt r st)
    (d.registered_observers.map (fun _ => (∅ : Finset Nat)), [], 0)).2.1 = _
  rw [create_eq_flat]
  simpa using dispatchFlat_events d (flattenReceiptEvents receipts)
    (d.registered_observers.map (fun _ => (∅ : Finset Nat)), [], 0)

/-- The dispatch matrix has one row per registered observer. -/
theorem create_dispatch_matrix_length (d : EventDispatcher)
    (receipts : List StacksTransactionReceipt) :
    ((d.create_dispatch_matrix_and_event_vector receipts).1).length =
      d.registered_observers.length := by
  show (receipts.foldl (fun st r => d.dispatch_receipt r st)
    (d.registered_observers.map (fun _ => (∅ : Finset Nat)), [], 0)).1.length = _
  rw [create_eq_flat]
  rw [dispatchFlat_matrix_length]
  simp

/-- Row `o` of the dispatch matrix is exactly the set of flattened indices
of the events observer `o` matches. -/
theorem create_dispatch_matrix_getElem? (d : EventDispatcher)
    (receipts : List StacksTransactionReceipt) (o : Nat)
    (h : o < d.registered_observers.length) :
    ((d.create_dispatch_matrix_and_event_vector receipts).1)[o]? =
      some (d.matchIdxSet o 0 (flattenReceiptEvents receipts)) := by
  show (receipts.foldl (fun st r => d.dispatch_receipt r st)
    (d.registered_observers.map (fun _ => (∅ : Finset Nat)), [], 0)).1[o]? = _
  rw [create_eq_flat]
  rw [dispatchFlat_matrix_getElem?]
  have hinit : (d.registered_observers.map (fun _ => (∅ : Finset Nat)))[o]? = some ∅ := by
    have hsome : d.registered_observers[o]? = some (d.registered_observers[o]) :=
      List.getElem?_eq_getElem h
    rw [List.getElem?_map, hsome]
    rfl
  rw [hinit]
  simp

/-- C3: for every batch of receipts and every any-event observer, the
dispatch matrix row computed by `create_dispatch_matrix_and_event_vector` is
the full index set of the flattened event vector, regardless of the topics of
the individual events. -/
theorem C3_dispatch_completeness (d : EventDispatcher)
    (receipts : List StacksTransactionReceipt) (o : Nat)
    (hany : o ∈ d.any_event_observers_lookup)
    (hlt : o < d.registered_observers.length) :
    ((d.create_dispatch_matrix_and_event_vector receipts).1)[o]? =
      some (Finset.range (d.create_dispatch_matrix_and_event_vector receipts).2.length) := by
  rw [create_dispatch_matrix_getElem? d receipts o hlt, create_dispatch_events]
  congr 1
  ext x
  rw [mem_matchIdxSet_any d o hany, Finset.mem_range]
  omega

/-- Witness for C3 on a concrete dispatcher with one any-event observer and
a two-event batch. -/
theorem C3_dispatch_completeness_witness :
    (0 : Nat) ∈ ({0} : Finset Nat) ∧ (0 : Nat) < 1 ∧
    ((EventDispatcher.create_dispatch_matrix_and_event_vector
      { registered_observers := [100],
        contract_events_observers_lookup := fun _ => none,
        assets_observers_lookup := fun _ => none,
        stx_observers_lookup := ∅,
        any_event_observers_lookup := {0} }
      [{ txid := 7, post_condition_aborted := false,
         events := [.STXEvent .stx_transfer_event, .SmartContractEvent 3] }]).1)[0]? =
      some (Finset.range
        (EventDispatcher.create_dispatch_matrix_and_event_vector
          { registered_observers := [100],
            contract_events_observers_lookup := fun _ => none,
            assets_observers_lookup := fun _ => none,
            stx_observers_lookup := ∅,
            any_event_observers_lookup := {0} }
          [{ txid := 7, post_condition_aborted := false,
             events := [.STXEvent .stx_transfer_event, .SmartContractEvent 3] }]).2.length) :=
  ⟨by decide, by decide,
   C3_dispatch_completeness _ _ 0 (by decide) (by decide)⟩

/-- For an observer subscribed only to topic `T`, keyed interest coincides
with topic membership of the event. -/
theorem interest_iff_topic (d : EventDispatcher) (o : Nat) (T : Topic)
    (hsub : subscribedOnlyTo d o T) (e : StacksTransactionEvent) :
    o ∈ d.eventInterestSet e ↔ e.matchesTopic T = true := by
  obtain ⟨hany, hc, ha, hs⟩ := hsub
  cases e with
  | SmartContractEvent key =>
    show o ∈ (d.contract_events_observers_lookup key).getD ∅ ↔ _
    rw [hc key]
    cases T with
    | contractTopic k =>
      simp only [StacksTransactionEvent.matchesTopic, beq_iff_eq, Topic.contractTopic.injEq]
      exact eq_comm
    | assetTopic b => simp [StacksTransactionEvent.matchesTopic]
    | stxTopic => simp [StacksTransactionEvent.matchesTopic]
  | STXEvent t =>
    show o ∈ d.stx_observers_lookup ↔ _
    rw [hs]
    cases T <;> simp [StacksTransactionEvent.matchesTopic]
  | NFTEvent t =>
    cases t with
    | nft_transfer_event a =>
      show o ∈ (d.assets_observers_lookup a).getD ∅ ↔ _
      rw [ha a]
      cases T with
      | contractTopic k => simp [StacksTransactionEvent.matchesTopic]
      | assetTopic b =>
        simp only [StacksTransactionEvent.matchesTopic, beq_iff_eq, Topic.assetTopic.injEq]
        exact eq_comm
      | stxTopic => simp [StacksTransactionEvent.matchesTopic]
    | nft_mint_event a =>
      show o ∈ (d.assets_observers_lookup a).getD ∅ ↔ _
      rw [ha a]
      cases T with
      | contractTopic k => simp [StacksTransactionEvent.matchesTopic]
      | assetTopic b =>
        simp only [StacksTransactionEvent.matchesTopic, beq_iff_eq, Topic.assetTopic.injEq]
        exact eq_comm
      | stxTopic => simp [StacksTransactionEvent.matchesTopic]
    | nft_burn_event a =>
      show o ∈ (d.assets_observers_lookup a).getD ∅ ↔ _
      rw [ha a]
      cases T with
      | contractTopic k => simp [StacksTransactionEvent.matchesTopic]
      | assetTopic b =>
        simp only [StacksTransactionEvent.matchesTopic, beq_iff_eq, Topic.assetTopic.injEq]
        exact eq_comm
      | stxTopic => simp [StacksTransactionEvent.matchesTopic]
  | FTEvent t =>
    cases t with
    | ft_transfer_event a =>
      show o ∈ (d.assets_observers_lookup a).getD ∅ ↔ _
      rw [ha a]
      cases T with
      | contractTopic k => simp [StacksTransactionEvent.matchesTopic]
      | assetTopic b =>
        simp only [StacksTransactionEvent.matchesTopic, beq_iff_eq, Topic.assetTopic.injEq]
        exact eq_comm
      | stxTopic => simp [StacksTransactionEvent.matchesTopic]
    | ft_mint_event a =>
      show o ∈ (d.assets_observers_lookup a).getD ∅ ↔ _
      rw [ha a]
      cases T with
      | contractTopic k => simp [StacksTransactionEvent.matchesTopic]
      | assetTopic b =>
        simp only [StacksTransactionEvent.matchesTopic, beq_iff_eq, Topic.assetTopic.injEq]
        exact eq_comm
      | stxTopic => simp [StacksTransactionEvent.matchesTopic]
    | ft_burn_event a =>
      show o ∈ (d.assets_observers_lookup a).getD ∅ ↔ _
      rw [ha a]
      cases T with
      | contractTopic k => simp [StacksTransactionEvent.matchesTopic]
      | assetTopic b =>
        simp only [StacksTransactionEvent.matchesTopic, beq_iff_eq, Topic.assetTopic.injEq]
        exact eq_comm
      | stxTopic => simp [StacksTransactionEvent.matchesTopic]

/-- C4: for every batch of receipts and every observer subscribed only to a
single topic `T` (and not to any-event), the dispatch matrix row is exactly
the set of flattened indices of the events matching `T`; no index outside
`T`'s matches is added. -/
theorem C4_dispatch_exclusivity (d : EventDispatcher)
    (receipts : List StacksTransactionReceipt) (o : Nat) (T : Topic)
    (hsub : subscribedOnlyTo d o T)
    (hlt : o < d.registered_observers.length) :
    ((d.create_dispatch_matrix_and_event_vector receipts).1)[o]? =
      some ((Finset.range (d.create_dispatch_matrix_and_event_vector receipts).2.length).filter
        (fun i => matchesAtTopic (d.create_dispatch_matrix_and_event_vector receipts).2 T i = true)) := by
  rw [create_dispatch_matrix_getElem? d receipts o hlt, create_dispatch_events]
  congr 1
  ext x
  rw [mem_matchIdxSet, Finset.mem_filter, Finset.mem_range]
  constructor
  · rintro ⟨j, bte, hj, hx, hm⟩
    have hxj : x = j := by omega
    subst hxj
    have hlen : x < (flattenReceiptEvents receipts).length := by
      by_contra hge
      rw [List.getElem?_eq_none (by omega)] at hj
      cases hj
    refine ⟨hlen, ?_⟩
    have hint : o ∈ d.eventInterestSet bte.2.2 := by
      rcases hm with h | h
      · exact h
      · exact absurd h hsub.1
    rw [show matchesAtTopic (flattenReceiptEvents receipts) T x =
        bte.2.2.matchesTopic T by simp [matchesAtTopic, hj]]
    exact (interest_iff_topic d o T hsub bte.2.2).1 hint
  · rintro ⟨hx, hmt⟩
    obtain ⟨bte, hbte⟩ : ∃ bte, (flattenReceiptEvents receipts)[x]? = some bte :=
      ⟨(flattenReceiptEvents receipts)[x], List.getElem?_eq_getElem hx⟩
    refine ⟨x, bte, hbte, by omega, Or.inl ?_⟩
    rw [interest_iff_topic d o T hsub bte.2.2]
    simpa [matchesAtTopic, hbte] using hmt

/-- Witness for C4 on a concrete dispatcher whose only observer subscribes
exactly to the STX-event topic, with a mixed two-event batch. -/
theorem C4_dispatch_exclusivity_witness :
    subscribedOnlyTo
      { registered_observers := [100],
        contract_events_observers_lookup := fun _ => none,
        assets_observers_lookup := fun _ => none,
        stx_observers_lookup := {0},
        any_event_observers_lookup := ∅ } 0 .stxTopic ∧
    (0 : Nat) < 1 ∧
    ((EventDispatcher.create_dispatch_matrix_and_event_vector
      { registered_observers := [100],
        contract_events_observers_lookup := fun _ => none,
        assets_observers_lookup := fun _ => none,
        stx_observers_lookup := {0},
        any_event_observers_lookup := ∅ }
      [{ txid := 7, post_condition_aborted := false,
         events := [.STXEvent .stx_transfer_event, .SmartContractEvent 3] }]).1)[0]? =
      some ((Finset.range
        (EventDispatcher.create_dispatch_matrix_and_event_vector
          { registered_observers := [100],
            contract_events_observers_lookup := fun _ => none,
            assets_observers_lookup := fun _ => none,
            stx_observers_lookup := {0},
            any_event_observers_lookup := ∅ }
          [{ txid := 7, post_condition_aborted := false,
             events := [.STXEvent .stx_transfer_event, .SmartContractEvent 3] }]).2.length).filter
        (fun i => matchesAtTopic
          (EventDispatcher.create_dispatch_matrix_and_event_vector
            { registered_observers := [100],
              contract_events_observers_lookup := fun _ => none,
              assets_observers_lookup := fun _ => none,
              stx_observers_lookup := {0},
              any_event_observers_lookup := ∅ }
            [{ txid := 7, post_condition_aborted := false,
               events := [.STXEvent .stx_transfer_event, .SmartContractEvent 3] }]).2 .stxTopic i
          = true)) :=
  ⟨by refine ⟨by simp, fun key => by simp, fun a => by simp, by simp⟩,
   by decide,
   C4_dispatch_exclusivity _ _ 0 .stxTopic
     ⟨by simp, fun key => by simp, fun a => by simp, by simp⟩ (by decide)⟩

/-- C10: with at least one registered observer, `process_chain_tip` sends
the `new_block` payload to every registered observer, including observers
with an empty dispatch-matrix row — the matrix filters the events in each
payload, not which observers receive a POST. -/
theorem C10_process_chain_tip_all_observers (d : EventDispatcher)
    (receipts : List StacksTransactionReceipt)
    (hobs : 0 < d.registered_observers.length) :
    (d.process_chain_tip_posts receipts).map Prod.fst =
      List.range d.registered_observers.length := by
  have hlen := create_dispatch_matrix_length d receipts
  show (if 0 < ((d.create_dispatch_matrix_and_event_vector receipts).1).length
      then ((d.create_dispatch_matrix_and_event_vector receipts).1).enum else []).map
      Prod.fst = _
  rw [if_pos (by rw [hlen]; exact hobs)]
  rw [List.enum_map_fst, hlen]

/-- Witness for C10 on a concrete dispatcher with two observers, neither of
which subscribes to any topic. -/
theorem C10_process_chain_tip_all_observers_witness :
    (0 : Nat) < 2 ∧
    (EventDispatcher.process_chain_tip_posts
      { registered_observers := [100, 101],
        contract_events_observers_lookup := fun _ => none,
        assets_observers_lookup := fun _ => none,
        stx_observers_lookup := ∅,
        any_event_observers_lookup := ∅ }
      [{ txid := 7, post_condition_aborted := false,
         events := [.STXEvent .stx_transfer_event] }]).map Prod.fst = List.range 2 :=
  ⟨by decide,
   C10_process_chain_tip_all_observers _ _ (by decide)⟩

/-- With pairwise-distinct block ids, lookup by a member's id finds exactly
that member. -/
theorem lookupBlock_eq_some (blocks : List NakamotoBlock) (b : NakamotoBlock)
    (hmem : b ∈ blocks)
    (hnodup : (blocks.map (fun x => x.header.block_id)).Nodup) :
    lookupBlock blocks b.header.block_id = some b := by
  induction blocks with
  | nil => cases hmem
  | cons a rest ih =>
    rw [List.map_cons, List.nodup_cons] at hnodup
    rcases List.mem_cons.mp hmem with hba | hbr
    · subst hba
      simp [lookupBlock, List.find?]
    · by_cases hid : a.header.block_id = b.header.block_id
      · exfalso
        exact hnodup.1 (hid ▸ List.mem_map_of_mem (fun x => x.header.block_id) hbr)
      · have := ih hbr hnodup.2
        simp only [lookupBlock, List.find?] at this ⊢
        rw [show (a.header.block_id == b.header.block_id) = false by
          simpa using hid]
        exact this

/-- The budget comparison computed with u64 saturating additions agrees with
exact arithmetic, for budgets below the u64 bound and an in-budget running
total. -/
theorem saturating_budget_check (T sb s1 max_len : Nat)
    (hmax : max_len < U64_MAX) :
    (max_len < saturating_add (saturating_add T sb) s1 ↔ max_len < T + sb + s1) := by
  simp only [saturating_add, U64_MAX] at *
  omega

/-- When the budget check passes, the running total is exact and in budget. -/
theorem saturating_total_exact (T sb s1 max_len : Nat)
    (hmax : max_len < U64_MAX)
    (hc : ¬ max_len < saturating_add (saturating_add T sb) s1) :
    saturating_add T sb = T + sb ∧ T + sb ≤ max_len := by
  simp only [saturating_add, U64_MAX] at *
  omega

/-- Anatomy of a successful advance: the parent is a same-tenure Nakamoto
block present in the staging DB, the budget check passed, and the new state
is the reset inner stream with the accumulated running total. -/
theorem next_block_ok_true_full (cs : ChainState) (s s2 : NakamotoTenureStream)
    (h : NakamotoTenureStream.next_block cs s = .ok (true, s2)) :
    ∃ pnh parent_blk,
      cs.headers s.block_stream.parent_block_id = some (.nakamoto pnh) ∧
      pnh.consensus_hash = s.block_stream.consensus_hash ∧
      cs.staging s.block_stream.parent_block_id = some parent_blk ∧
      ¬ (cs.max_message_len < saturating_add
          (saturating_add s.total_sent s.block_stream.total_bytes)
          ((cs.ser parent_blk).length)) ∧
      s2 = { total_sent := saturating_add s.total_sent s.block_stream.total_bytes,
             block_stream := s.block_stream.reset pnh.block_id pnh.parent_block_id } := by
  cases hh : cs.headers s.block_stream.parent_block_id with
  | none => simp [NakamotoTenureStream.next_block, hh] at h
  | some ph =>
    cases hph : ph.as_stacks_nakamoto with
    | none => simp [NakamotoTenureStream.next_block, hh, hph] at h
    | some pnh =>
      by_cases hch : pnh.consensus_hash ≠ s.block_stream.consensus_hash
      · simp [NakamotoTenureStream.next_block, hh, hph, hch] at h
      · cases hst : cs.staging s.block_stream.parent_block_id with
        | none => simp [NakamotoTenureStream.next_block, hh, hph, hch, hst] at h
        | some parent_blk =>
          by_cases hb : cs.max_message_len < saturating_add
              (saturating_add s.total_sent s.block_stream.total_bytes)
              ((cs.ser parent_blk).length)
          · simp [NakamotoTenureStream.next_block, hh, hph, hch, hst, hb] at h
          · simp only [NakamotoTenureStream.next_block, hh, hph, if_neg hch, hst,
              if_neg hb, Except.ok.injEq, Prod.mk.injEq, true_and] at h
            refine ⟨pnh, parent_blk, ?_, not_ne_iff.mp hch, rfl, hb, h.symm⟩
            cases ph with
            | nakamoto x =>
              simp only [AnchoredHeader.as_stacks_nakamoto, Option.some.injEq] at hph
              rw [hph]
            | epoch2 => simp [AnchoredHeader.as_stacks_nakamoto] at hph

/-- Position `k` is within the budget-taken count exactly when the prefix sum
through position `k` stays within the budget. -/
theorem lt_budgetTake_iff (max_len : Nat) :
    ∀ (sizes : List Nat) (t k : Nat), k < sizes.length →
    (k < budgetTake max_len t sizes ↔ t + ((sizes.take (k + 1)).sum) ≤ max_len) := by
  intro sizes
  induction sizes with
  | nil => intro t k hk; simp at hk
  | cons s rest ih =>
    intro t k hk
    cases k with
    | zero =>
      by_cases hc : max_len < t + s
      · simp only [budgetTake, if_pos hc, List.take_succ_cons, List.take_zero,
          List.sum_cons, List.sum_nil]
        omega
      · simp only [budgetTake, if_neg hc, List.take_succ_cons, List.take_zero,
          List.sum_cons, List.sum_nil]
        omega
    | succ k =>
      simp only [List.take_succ_cons, List.sum_cons]
      by_cases hc : max_len < t + s
      · simp only [budgetTake, if_pos hc]
        constructor
        · omega
        · intro hsum
          omega
      · simp only [budgetTake, if_neg hc]
        have := ih (t + s) k (by simpa using hk)
        omega

/-- Core induction for the budget claim: from a fully-streamed current block,
the walk emits exactly the budget-bounded prefix of the remaining same-tenure
chain, provided the budget cuts off strictly before the chain runs out. -/
theorem walkRest_chain (ser : NakamotoBlock → List Nat) (blocks : List NakamotoBlock)
    (max_len : Nat) (ch : CHash)
    (hnodup : (blocks.map (fun b => b.header.block_id)).Nodup)
    (hch : ∀ b ∈ blocks, b.header.consensus_hash = ch)
    (hmax : max_len < U64_MAX) :
    ∀ (t : List NakamotoBlock) (fuel : Nat) (bcur : NakamotoBlock) (T : Nat)
      (s : NakamotoTenureStream),
    (∀ b ∈ t, b ∈ blocks) →
    List.Chain' parentLinked (bcur :: t) →
    (∀ b2 ∈ t.head?, s.block_stream.parent_block_id = b2.header.block_id) →
    s.block_stream.consensus_hash = ch →
    s.total_sent = T →
    s.block_stream.total_bytes = (ser bcur).length →
    T ≤ max_len →
    budgetTake max_len (T + (ser bcur).length) (t.map (fun b => (ser b).length)) < t.length →
    t.length ≤ fuel →
    tenureWalkRest (chainState ser blocks max_len) fuel s =
      .ok (t.take (budgetTake max_len (T + (ser bcur).length)
        (t.map (fun b => (ser b).length)))) := by
  intro t
  induction t with
  | nil =>
    intro fuel bcur T s _ _ _ _ _ _ _ hcut _
    simp [budgetTake] at hcut
  | cons b1 t2 ih =>
    intro fuel bcur T s hsub hlink hparent hcs hsent hdrain hT hcut hfuel
    cases fuel with
    | zero => simp at hfuel
    | succ f =>
      have hb1mem : b1 ∈ blocks := hsub b1 (List.mem_cons_self b1 t2)
      have hpar : s.block_stream.parent_block_id = b1.header.block_id :=
        hparent b1 rfl
      have hlook : lookupBlock blocks b1.header.block_id = some b1 :=
        lookupBlock_eq_some blocks b1 hb1mem hnodup
      have hhd : (chainState ser blocks max_len).headers s.block_stream.parent_block_id =
          some (.nakamoto b1.header) := by
        show (lookupBlock blocks s.block_stream.parent_block_id).map _ = _
        rw [hpar, hlook]
        rfl
      have hstg : (chainState ser blocks max_len).staging s.block_stream.parent_block_id =
          some b1 := by
        show lookupBlock blocks s.block_stream.parent_block_id = some b1
        rw [hpar, hlook]
      have hchb1 : ¬ (b1.header.consensus_hash ≠ s.block_stream.consensus_hash) := by
        rw [hch b1 hb1mem, hcs]
        simp
      by_cases hbudget : max_len < T + (ser bcur).length + (ser b1).length
      · -- the budget is exhausted: the walk stops here
        have hC : (chainState ser blocks max_len).max_message_len <
            saturating_add (saturating_add s.total_sent s.block_stream.total_bytes)
              (((chainState ser blocks max_len).ser b1).length) := by
          show max_len < saturating_add (saturating_add s.total_sent s.block_stream.total_bytes)
            ((ser b1).length)
          rw [hsent, hdrain]
          exact (saturating_budget_check T ((ser bcur).length) ((ser b1).length)
            max_len hmax).mpr hbudget
        have hnb : NakamotoTenureStream.next_block (chainState ser blocks max_len) s =
            .ok (false, { s with
              total_sent := saturating_add s.total_sent s.block_stream.total_bytes }) := by
          simp [NakamotoTenureStream.next_block, hhd, AnchoredHeader.as_stacks_nakamoto,
            hchb1, hstg, hC]
        have hb0 : budgetTake max_len (T + (ser bcur).length)
            ((b1 :: t2).map (fun b => (ser b).length)) = 0 := by
          simp only [List.map_cons, budgetTake, if_pos hbudget]
        rw [hb0, List.take_zero]
        simp [tenureWalkRest, hnb]
      · -- the parent still fits: the walk continues with the parent
        have hnC' : ¬ (max_len <
            saturating_add (saturating_add T ((ser bcur).length)) ((ser b1).length)) :=
          fun hlt => hbudget ((saturating_budget_check T ((ser bcur).length)
            ((ser b1).length) max_len hmax).mp hlt)
        have hexact := saturating_total_exact T ((ser bcur).length) ((ser b1).length)
          max_len hmax hnC'
        have hnC : ¬ ((chainState ser blocks max_len).max_message_len <
            saturating_add (saturating_add s.total_sent s.block_stream.total_bytes)
              (((chainState ser blocks max_len).ser b1).length)) := by
          show ¬ (max_len < saturating_add
            (saturating_add s.total_sent s.block_stream.total_bytes) ((ser b1).length))
          rw [hsent, hdrain]
          exact hnC'
        have hnb : NakamotoTenureStream.next_block (chainState ser blocks max_len) s =
            .ok (true, { total_sent := saturating_add s.total_sent s.block_stream.total_bytes,
                         block_stream := s.block_stream.reset b1.header.block_id
                           b1.header.parent_block_id }) := by
          simp [NakamotoTenureStream.next_block, hhd, AnchoredHeader.as_stacks_nakamoto,
            hchb1, hstg, hnC]
        have hlink2 : List.Chain' parentLinked (b1 :: t2) :=
          (List.chain'_cons.mp hlink).2
        have hrec := ih f b1 (T + (ser bcur).length)
          (({ total_sent := saturating_add s.total_sent s.block_stream.total_bytes,
              block_stream := s.block_stream.reset b1.header.block_id
                b1.header.parent_block_id } : NakamotoTenureStream).drainCurrent
            (chainState ser blocks max_len) b1)
          (fun b hb => hsub b (List.mem_cons_of_mem b1 hb))
          hlink2
          (by
            intro b2 hb2
            cases t2 with
            | nil => simp at hb2
            | cons c t3 =>
              have hb2c : c = b2 := by simpa using hb2
              subst hb2c
              show b1.header.parent_block_id = c.header.block_id
              exact (List.chain'_cons.mp hlink2).1)
          (by show s.block_stream.consensus_hash = ch; exact hcs)
          (by
            show saturating_add s.total_sent s.block_stream.total_bytes = _
            rw [hsent, hdrain]
            exact hexact.1)
          rfl
          hexact.2
          (by
            simp only [List.map_cons, budgetTake, if_neg hbudget] at hcut
            simp only [List.length_cons] at hcut
            omega)
          (by
            simp only [List.length_cons] at hfuel
            omega)
        have hb1take : budgetTake max_len (T + (ser bcur).length)
            ((b1 :: t2).map (fun b => (ser b).length)) =
            (budgetTake max_len (T + (ser bcur).length + (ser b1).length)
              (t2.map (fun b => (ser b).length))) + 1 := by
          simp only [List.map_cons, budgetTake, if_neg hbudget]
          omega
        rw [hb1take, List.take_succ_cons]
        simp only [tenureWalkRest, hnb]
        rw [show (chainState ser blocks max_len).staging
            (({ total_sent := saturating_add s.total_sent s.block_stream.total_bytes,
                block_stream := s.block_stream.reset b1.header.block_id
                  b1.header.parent_block_id } : NakamotoTenureStream).block_stream.block_id) =
            some b1 from hlook]
        simp only [hrec]

/-- C1: streaming from the newest block of a same-tenure chain, the walk
emits the start block and then includes each further ancestor exactly while
the running prefix sum of block sizes stays within the configured maximum
message size, terminating at the first block whose inclusion would exceed the
budget even though further same-tenure ancestors exist. -/
theorem C1_tenure_budget_termination
    (ser : NakamotoBlock → List Nat) (b0 : NakamotoBlock) (rest : List NakamotoBlock)
    (max_len : Nat) (ch : CHash) (fuel : Nat)
    (hnodup : ((b0 :: rest).map (fun b => b.header.block_id)).Nodup)
    (hch : ∀ b ∈ b0 :: rest, b.header.consensus_hash = ch)
    (hmax : max_len < U64_MAX)
    (hlink : List.Chain' parentLinked (b0 :: rest))
    (hcut : budgetTake max_len ((ser b0).length)
      (rest.map (fun b => (ser b).length)) < rest.length)
    (hfuel : rest.length ≤ fuel) :
    tenureWalk (chainState ser (b0 :: rest) max_len) fuel
        (NakamotoTenureStream.new b0.header.block_id b0.header.consensus_hash
          b0.header.parent_block_id) =
      .ok ((b0 :: rest).take
        (budgetTake max_len ((ser b0).length) (rest.map (fun b => (ser b).length)) + 1)) ∧
    (∀ k, k + 1 < (b0 :: rest).length →
      ((k + 1 < budgetTake max_len ((ser b0).length)
          (rest.map (fun b => (ser b).length)) + 1) ↔
        ((((b0 :: rest).map (fun b => (ser b).length)).take (k + 2)).sum ≤ max_len))) := by
  have hmem0 : b0 ∈ b0 :: rest := List.mem_cons_self b0 rest
  have hlook0 : lookupBlock (b0 :: rest) b0.header.block_id = some b0 :=
    lookupBlock_eq_some (b0 :: rest) b0 hmem0 hnodup
  have hwrest := walkRest_chain ser (b0 :: rest) max_len ch hnodup hch hmax rest fuel b0 0
    ((NakamotoTenureStream.new b0.header.block_id b0.header.consensus_hash
      b0.header.parent_block_id).drainCurrent (chainState ser (b0 :: rest) max_len) b0)
    (fun b hb => List.mem_cons_of_mem b0 hb)
    hlink
    (by
      intro b2 hb2
      cases rest with
      | nil => simp at hb2
      | cons c t3 =>
        have hb2c : c = b2 := by simpa using hb2
        subst hb2c
        show b0.header.parent_block_id = c.header.block_id
        exact (List.chain'_cons.mp hlink).1)
    (show b0.header.consensus_hash = ch from hch b0 hmem0)
    rfl
    rfl
    (Nat.zero_le max_len)
    (by rw [Nat.zero_add]; exact hcut)
    hfuel
  rw [Nat.zero_add] at hwrest
  constructor
  · have hstg0 : (chainState ser (b0 :: rest) max_len).staging
        (NakamotoTenureStream.new b0.header.block_id b0.header.consensus_hash
          b0.header.parent_block_id).block_stream.block_id = some b0 := by
      show lookupBlock (b0 :: rest) b0.header.block_id = some b0
      exact hlook0
    simp only [tenureWalk]
    rw [hstg0]
    simp only [hwrest, List.take_succ_cons]
  · intro k hk
    have hk2 : k < (rest.map (fun b => (ser b).length)).length := by
      simp only [List.length_cons] at hk
      simpa using Nat.lt_of_succ_lt_succ hk
    have hiff := lt_budgetTake_iff max_len (rest.map (fun b => (ser b).length))
      ((ser b0).length) k hk2
    rw [show k + 2 = (k + 1) + 1 from rfl]
    simp only [List.map_cons, List.take_succ_cons, List.sum_cons]
    omega

/-- Witness for C1 at the spec's scenario: budget 1000, three same-tenure
blocks of 400 bytes each walking from the newest; exactly two are streamed. -/
theorem C1_tenure_budget_termination_witness :
    budgetTake 1000
      ((fun (b : NakamotoBlock) => b.txs)
        { header := { consensus_hash := 1, block_id := 10, parent_block_id := 11 },
          txs := List.replicate 400 0 }).length
      ([({ header := { consensus_hash := 1, block_id := 11, parent_block_id := 12 },
           txs := List.replicate 400 0 } : NakamotoBlock),
        { header := { consensus_hash := 1, block_id := 12, parent_block_id := 13 },
          txs := List.replicate 400 0 }].map
        (fun b => ((fun (b : NakamotoBlock) => b.txs) b).length)) < 2 ∧
    tenureWalk
      (chainState (fun b => b.txs)
        [{ header := { consensus_hash := 1, block_id := 10, parent_block_id := 11 },
           txs := List.replicate 400 0 },
         { header := { consensus_hash := 1, block_id := 11, parent_block_id := 12 },
           txs := List.replicate 400 0 },
         { header := { consensus_hash := 1, block_id := 12, parent_block_id := 13 },
           txs := List.replicate 400 0 }] 1000) 2
      (NakamotoTenureStream.new 10 1 11) =
    .ok [{ header := { consensus_hash := 1, block_id := 10, parent_block_id := 11 },
           txs := List.replicate 400 0 },
         { header := { consensus_hash := 1, block_id := 11, parent_block_id := 12 },
           txs := List.replicate 400 0 }] :=
  ⟨by decide,
   (C1_tenure_budget_termination (fun b => b.txs)
     { header := { consensus_hash := 1, block_id := 10, parent_block_id := 11 },
       txs := List.replicate 400 0 }
     [{ header := { consensus_hash := 1, block_id := 11, parent_block_id := 12 },
        txs := List.replicate 400 0 },
      { header := { consensus_hash := 1, block_id := 12, parent_block_id := 13 },
        txs := List.replicate 400 0 }]
     1000 1 2 (by decide) (by decide) (by decide)
     (List.chain'_cons.mpr ⟨rfl, List.chain'_cons.mpr ⟨rfl, List.chain'_singleton _⟩⟩)
     (by decide) (by decide)).1⟩

/-- Chunk-level/walk-level simulation from a fully-streamed current block:
when every block serializes to at least one byte, the chunk generator emits
exactly one chunk per further walked block, namely its serialization. -/
theorem run_eq_walkRest (cs : ChainState) (hser : ∀ b, cs.ser b ≠ []) :
    ∀ (fuel : Nat) (s : NakamotoTenureStream) (blk : NakamotoBlock)
      (blks : List NakamotoBlock),
    cs.staging s.block_stream.block_id = some blk →
    s.block_stream.total_bytes = (cs.ser blk).length →
    tenureWalkRest cs fuel s = .ok blks →
    runTenureStream cs fuel s = .ok (blks.map cs.ser) := by
  intro fuel
  induction fuel with
  | zero => intro s blk blks _ _ hwalk; simp [tenureWalkRest] at hwalk
  | succ f ih =>
    intro s blk blks hst hdrain hwalk
    have hchunk : s.block_stream.generate_next_chunk cs =
        .ok ([], { s.block_stream with total_bytes := (cs.ser blk).length }) := by
      simp [NakamotoBlockStream.generate_next_chunk, hst, hdrain, List.drop_length]
    have hs1 : ({ s with block_stream :=
        { s.block_stream with total_bytes := (cs.ser blk).length } } : NakamotoTenureStream) = s := by
      rw [← hdrain]
    cases hnb : NakamotoTenureStream.next_block cs s with
    | error e =>
      simp [tenureWalkRest, hnb] at hwalk
    | ok p =>
      obtain ⟨more, s2⟩ := p
      cases more with
      | false =>
        have hblks : blks = [] := by
          simp [tenureWalkRest, hnb] at hwalk
          exact hwalk
        subst hblks
        simp [runTenureStream, NakamotoTenureStream.generate_next_chunk, hchunk, hs1, hnb]
      | true =>
        obtain ⟨pnh, parent_blk, hhdr, hcheq, hpst, hbud, hs2⟩ :=
          next_block_ok_true_full cs s s2 hnb
        subst hs2
        have hbid : (s.block_stream.reset pnh.block_id pnh.parent_block_id).block_id =
            pnh.block_id := rfl
        cases hst2 : cs.staging pnh.block_id with
        | none => simp [tenureWalkRest, hbid, hnb, hst2] at hwalk
        | some blk2 =>
          cases hrec : tenureWalkRest cs f
              (NakamotoTenureStream.drainCurrent cs
                { total_sent := saturating_add s.total_sent s.block_stream.total_bytes,
                  block_stream := s.block_stream.reset pnh.block_id pnh.parent_block_id }
                blk2) with
          | error e =>
            simp [tenureWalkRest, hbid, hnb, hst2, hrec] at hwalk
          | ok blks2 =>
            have hblks : blks = blk2 :: blks2 := by
              simp [tenureWalkRest, hbid, hnb, hst2, hrec] at hwalk
              first
              | exact hwalk
              | exact hwalk.symm
            subst hblks
            have hrun := ih
              (NakamotoTenureStream.drainCurrent cs
                { total_sent := saturating_add s.total_sent s.block_stream.total_bytes,
                  block_stream := s.block_stream.reset pnh.block_id pnh.parent_block_id }
                blk2) blk2 blks2
              (by show cs.staging pnh.block_id = some blk2; exact hst2)
              rfl
              hrec
            simp only [NakamotoTenureStream.drainCurrent] at hrun
            have hne2 : cs.ser blk2 ≠ [] := hser blk2
            have hpos : 0 < (cs.ser blk2).length := List.length_pos.mpr hne2
            have hchunk2 : NakamotoBlockStream.generate_next_chunk cs
                (s.block_stream.reset pnh.block_id pnh.parent_block_id) =
                .ok (cs.ser blk2,
                  { s.block_stream.reset pnh.block_id pnh.parent_block_id with
                    total_bytes := (cs.ser blk2).length }) := by
              simp [NakamotoBlockStream.generate_next_chunk, NakamotoBlockStream.reset, hst2]
            simp [runTenureStream, NakamotoTenureStream.generate_next_chunk, hchunk, hs1,
              hnb, hchunk2, hpos, hne2, hrun]

/-- Chunk-level/walk-level simulation for a whole stream started on a fresh
block: the emitted chunks are exactly the serializations of the walked
blocks, in order. -/
theorem run_eq_walk (cs : ChainState) (hser : ∀ b, cs.ser b ≠ [])
    (fuel : Nat) (s : NakamotoTenureStream) (blk : NakamotoBlock)
    (blks : List NakamotoBlock)
    (hst : cs.staging s.block_stream.block_id = some blk)
    (hfresh : s.block_stream.total_bytes = 0)
    (hwalk : tenureWalk cs fuel s = .ok blks) :
    runTenureStream cs (fuel + 1) s = .ok (blks.map cs.ser) := by
  cases hrec : tenureWalkRest cs fuel (s.drainCurrent cs blk) with
  | error e => simp [tenureWalk, hst, hrec] at hwalk
  | ok blks2 =>
    have hblks : blks = blk :: blks2 := by
      simp [tenureWalk, hst, hrec] at hwalk
      first
      | exact hwalk
      | exact hwalk.symm
    subst hblks
    have hrun := run_eq_walkRest cs hser fuel (s.drainCurrent cs blk) blk blks2
      (by show cs.staging s.block_stream.block_id = some blk; exact hst) rfl hrec
    simp only [NakamotoTenureStream.drainCurrent] at hrun
    have hne := hser blk
    have hpos : 0 < (cs.ser blk).length := List.length_pos.mpr hne
    have hchunk1 : NakamotoBlockStream.generate_next_chunk cs s.block_stream =
        .ok (cs.ser blk, { s.block_stream with total_bytes := (cs.ser blk).length }) := by
      simp [NakamotoBlockStream.generate_next_chunk, hst, hfresh]
    simp [runTenureStream, NakamotoTenureStream.generate_next_chunk, hchunk1, hpos, hne,
      hrun]

/-- Decoding the raw concatenation of serialized blocks recovers the block
list, for any codec in which deserialization inverts serialization on
prefixes and serializations are nonempty. -/
theorem decode_concat (deser : List Nat → Option (NakamotoBlock × List Nat))
    (ser : NakamotoBlock → List Nat)
    (hros : ∀ b rest, deser (ser b ++ rest) = some (b, rest))
    (hne : ∀ b, ser b ≠ []) :
    ∀ (blks : List NakamotoBlock),
    decode_nakamoto_tenure deser blks.length (List.flatten (blks.map ser)) = some blks := by
  intro blks
  induction blks with
  | nil => rfl
  | cons blk rest ih =>
    have hx : ∃ a l, ser blk = a :: l := by
      cases h : ser blk with
      | nil => exact absurd h (hne blk)
      | cons a l => exact ⟨a, l, rfl⟩
    obtain ⟨a, l, hx⟩ := hx
    have hflat : List.flatten ((blk :: rest).map ser) =
        a :: (l ++ List.flatten (rest.map ser)) := by
      simp [hx]
    rw [hflat]
    have hdes : deser (a :: (l ++ List.flatten (rest.map ser))) =
        some (blk, List.flatten (rest.map ser)) := by
      rw [show a :: (l ++ List.flatten (rest.map ser)) =
          ser blk ++ List.flatten (rest.map ser) by rw [hx]; rfl]
      exact hros blk _
    simp [decode_nakamoto_tenure, hdes, ih]

/-- C5: for every completed tenure stream on nonempty-serializing blocks,
the emitted chunks are exactly the serializations of the walked blocks in
child-to-ancestor order, and decoding their concatenation by repeatedly
deserializing one block from the front yields exactly the walked block list,
with no bytes left over. -/
theorem C5_round_trip (cs : ChainState)
    (deser : List Nat → Option (NakamotoBlock × List Nat))
    (hser_ne : ∀ b, cs.ser b ≠ [])
    (hros : ∀ b rest, deser (cs.ser b ++ rest) = some (b, rest))
    (fuel : Nat) (s : NakamotoTenureStream) (blk : NakamotoBlock)
    (blks : List NakamotoBlock)
    (hst : cs.staging s.block_stream.block_id = some blk)
    (hfresh : s.block_stream.total_bytes = 0)
    (hwalk : tenureWalk cs fuel s = .ok blks) :
    runTenureStream cs (fuel + 1) s = .ok (blks.map cs.ser) ∧
    decode_nakamoto_tenure deser blks.length (List.flatten (blks.map cs.ser)) = some blks :=
  ⟨run_eq_walk cs hser_ne fuel s blk blks hst hfresh hwalk,
   decode_concat deser cs.ser hros hser_ne blks⟩

/-- Witness for C5 on a one-block tenure with a concrete length-prefixing
codec. -/
theorem C5_round_trip_witness :
    tenureWalk
      { headers := fun _ => some .epoch2,
        staging := fun bid =>
          if bid = 0 then
            some { header := { consensus_hash := 5, block_id := 0, parent_block_id := 1 },
                   txs := [9] }
          else none,
        ser := fun b => b.header.consensus_hash :: b.header.block_id ::
          b.header.parent_block_id :: b.txs.length :: b.txs,
        max_message_len := 100 } 1 (NakamotoTenureStream.new 0 5 1) =
      .ok [{ header := { consensus_hash := 5, block_id := 0, parent_block_id := 1 },
             txs := [9] }] ∧
    (runTenureStream
      { headers := fun _ => some .epoch2,
        staging := fun bid =>
          if bid = 0 then
            some { header := { consensus_hash := 5, block_id := 0, parent_block_id := 1 },
                   txs := [9] }
          else none,
        ser := fun b => b.header.consensus_hash :: b.header.block_id ::
          b.header.parent_block_id :: b.txs.length :: b.txs,
        max_message_len := 100 } 2 (NakamotoTenureStream.new 0 5 1) =
      .ok [[5, 0, 1, 1, 9]] ∧
    decode_nakamoto_tenure
      (fun bytes =>
        match bytes with
        | ch :: bid :: pid :: n :: rest =>
          some ({ header := { consensus_hash := ch, block_id := bid, parent_block_id := pid },
                  txs := rest.take n }, rest.drop n)
        | _ => none) 1 (List.flatten [[5, 0, 1, 1, 9]]) =
      some [{ header := { consensus_hash := 5, block_id := 0, parent_block_id := 1 },
              txs := [9] }]) :=
  ⟨rfl,
   C5_round_trip
     { headers := fun _ => some .epoch2,
       staging := fun bid =>
         if bid = 0 then
           some { header := { consensus_hash := 5, block_id := 0, parent_block_id := 1 },
                  txs := [9] }
         else none,
       ser := fun b => b.header.consensus_hash :: b.header.block_id ::
         b.header.parent_block_id :: b.txs.length :: b.txs,
       max_message_len := 100 }
     (fun bytes =>
       match bytes with
       | ch :: bid :: pid :: n :: rest =>
         some ({ header := { consensus_hash := ch, block_id := bid, parent_block_id := pid },
                 txs := rest.take n }, rest.drop n)
       | _ => none)
     (by intro b; simp)
     (by
       intro b rest
       obtain ⟨⟨ch, bid, pid⟩, txs⟩ := b
       simp [List.take_left, List.drop_left])
     1 (NakamotoTenureStream.new 0 5 1)
     { header := { consensus_hash := 5, block_id := 0, parent_block_id := 1 }, txs := [9] }
     [{ header := { consensus_hash := 5, block_id := 0, parent_block_id := 1 }, txs := [9] }]
     (by decide) rfl rfl⟩

/-- Budget invariant from a fully-streamed current block: the bytes still to
be emitted fit into what remains of the budget after the running total. -/
theorem run_drained_bound (cs : ChainState)
    (hwf : ∀ bid h, cs.headers bid = some (.nakamoto h) → h.block_id = bid)
    (hmax : cs.max_message_len < U64_MAX) :
    ∀ (fuel : Nat) (s : NakamotoTenureStream) (blk : NakamotoBlock)
      (chunks : List (List Nat)),
    cs.staging s.block_stream.block_id = some blk →
    s.block_stream.total_bytes = (cs.ser blk).length →
    runTenureStream cs fuel s = .ok chunks →
    (List.flatten chunks).length ≤
      cs.max_message_len - saturating_add s.total_sent s.block_stream.total_bytes := by
  intro fuel
  induction fuel with
  | zero => intro s blk chunks _ _ hrun; simp [runTenureStream] at hrun
  | succ f ih =>
    intro s blk chunks hst hdrain hrun
    have hchunk : s.block_stream.generate_next_chunk cs =
        .ok ([], { s.block_stream with total_bytes := (cs.ser blk).length }) := by
      simp [NakamotoBlockStream.generate_next_chunk, hst, hdrain, List.drop_length]
    have hs1 : ({ s with block_stream :=
        { s.block_stream with total_bytes := (cs.ser blk).length } } : NakamotoTenureStream) = s := by
      rw [← hdrain]
    cases hnb : NakamotoTenureStream.next_block cs s with
    | error e =>
      simp [runTenureStream, NakamotoTenureStream.generate_next_chunk, hchunk, hs1,
        hnb] at hrun
    | ok p =>
      obtain ⟨more, s2⟩ := p
      cases more with
      | false =>
        have hchunks : chunks = [] := by
          simp [runTenureStream, NakamotoTenureStream.generate_next_chunk, hchunk, hs1,
            hnb] at hrun
          exact hrun
        subst hchunks
        simp
      | true =>
        obtain ⟨pnh, parent_blk, hhdr, hcheq, hpst, hbud, hs2⟩ :=
          next_block_ok_true_full cs s s2 hnb
        subst hs2
        have hpid : pnh.block_id = s.block_stream.parent_block_id := hwf _ pnh hhdr
        have hst2 : cs.staging pnh.block_id = some parent_blk := by
          rw [hpid]; exact hpst
        have hchunk2 : NakamotoBlockStream.generate_next_chunk cs
            (s.block_stream.reset pnh.block_id pnh.parent_block_id) =
            .ok (cs.ser parent_blk,
              { s.block_stream.reset pnh.block_id pnh.parent_block_id with
                total_bytes := (cs.ser parent_blk).length }) := by
          simp [NakamotoBlockStream.generate_next_chunk, NakamotoBlockStream.reset, hst2]
        cases hser2 : cs.ser parent_blk with
        | nil =>
          have hchunks : chunks = [] := by
            simp [runTenureStream, NakamotoTenureStream.generate_next_chunk, hchunk, hs1,
              hnb, hchunk2, hser2] at hrun
            exact hrun
          subst hchunks
          simp
        | cons a l =>
          have hne2 : cs.ser parent_blk ≠ [] := by rw [hser2]; simp
          have hpos : 0 < (cs.ser parent_blk).length := List.length_pos.mpr hne2
          cases hrec : runTenureStream cs f
              { total_sent := saturating_add s.total_sent s.block_stream.total_bytes,
                block_stream := { s.block_stream.reset pnh.block_id pnh.parent_block_id with
                  total_bytes := (cs.ser parent_blk).length } } with
          | error e =>
            simp [runTenureStream, NakamotoTenureStream.generate_next_chunk, hchunk, hs1,
              hnb, hchunk2, hpos, hne2, hrec] at hrun
          | ok chunks2 =>
            have hchunks : chunks = cs.ser parent_blk :: chunks2 := by
              simp [runTenureStream, NakamotoTenureStream.generate_next_chunk, hchunk, hs1,
                hnb, hchunk2, hpos, hne2, hrec] at hrun
              first
              | exact hrun
              | exact hrun.symm
            subst hchunks
            have hrecb := ih
              { total_sent := saturating_add s.total_sent s.block_stream.total_bytes,
                block_stream := { s.block_stream.reset pnh.block_id pnh.parent_block_id with
                  total_bytes := (cs.ser parent_blk).length } }
              parent_blk chunks2
              (by show cs.staging pnh.block_id = some parent_blk; exact hst2)
              rfl
              hrec
            simp only [List.flatten_cons, List.length_append]
            simp only [NakamotoBlockStream.reset, saturating_add, U64_MAX] at hrecb hbud ⊢
            simp only [U64_MAX] at hmax
            omega

/-- C8 (amended): whenever the start block itself fits in the configured
maximum message size, every prefix of the emitted chunk sequence — hence the
whole response — totals at most that maximum. -/
theorem C8_total_bytes_bounded (cs : ChainState)
    (hwf : ∀ bid h, cs.headers bid = some (.nakamoto h) → h.block_id = bid)
    (hmax : cs.max_message_len < U64_MAX)
    (fuel : Nat) (s : NakamotoTenureStream) (blk : NakamotoBlock)
    (chunks : List (List Nat)) (n : Nat)
    (hst : cs.staging s.block_stream.block_id = some blk)
    (hfresh : s.block_stream.total_bytes = 0)
    (hsent : s.total_sent = 0)
    (hs0 : (cs.ser blk).length ≤ cs.max_message_len)
    (hrun : runTenureStream cs fuel s = .ok chunks) :
    ((chunks.take n).flatten).length ≤ cs.max_message_len := by
  have hprefix : ((chunks.take n).flatten).length ≤ (chunks.flatten).length := by
    conv_rhs => rw [← List.take_append_drop n chunks]
    rw [List.flatten_append, List.length_append]
    omega
  suffices h : (chunks.flatten).length ≤ cs.max_message_len by omega
  cases hser0 : cs.ser blk with
  | nil =>
    have hdrained : s.block_stream.total_bytes = (cs.ser blk).length := by
      rw [hser0]
      simpa using hfresh
    have hb := run_drained_bound cs hwf hmax fuel s blk chunks hst hdrained hrun
    simp only [saturating_add, U64_MAX, hsent, hfresh] at hb
    omega
  | cons a l =>
    have hne0 : cs.ser blk ≠ [] := by rw [hser0]; simp
    have hpos0 : 0 < (cs.ser blk).length := List.length_pos.mpr hne0
    have hchunk1 : NakamotoBlockStream.generate_next_chunk cs s.block_stream =
        .ok (cs.ser blk, { s.block_stream with total_bytes := (cs.ser blk).length }) := by
      simp [NakamotoBlockStream.generate_next_chunk, hst, hfresh]
    cases fuel with
    | zero => simp [runTenureStream] at hrun
    | succ f =>
      cases hrec : runTenureStream cs f
          { s with block_stream :=
            { s.block_stream with total_bytes := (cs.ser blk).length } } with
      | error e =>
        simp [runTenureStream, NakamotoTenureStream.generate_next_chunk, hchunk1, hpos0,
          hne0, hrec] at hrun
      | ok chunks2 =>
        have hchunks : chunks = cs.ser blk :: chunks2 := by
          simp [runTenureStream, NakamotoTenureStream.generate_next_chunk, hchunk1, hpos0,
            hne0, hrec] at hrun
          first
          | exact hrun
          | exact hrun.symm
        subst hchunks
        have hb := run_drained_bound cs hwf hmax f
          { s with block_stream :=
            { s.block_stream with total_bytes := (cs.ser blk).length } }
          blk chunks2
          (by show cs.staging s.block_stream.block_id = some blk; exact hst)
          rfl
          hrec
        simp only [List.flatten_cons, List.length_append]
        simp only [saturating_add, U64_MAX, hsent] at hb
        simp only [U64_MAX] at hmax
        omega

/-- Witness for the amended C8 on a concrete one-block stream whose block
fits the budget. -/
theorem C8_total_bytes_bounded_witness :
    (((fun (b : NakamotoBlock) => b.txs)
        { header := { consensus_hash := 5, block_id := 0, parent_block_id := 1 },
          txs := [1, 2, 3] }).length ≤ 10) ∧
    (([[1, 2, 3]].take 1).flatten).length ≤
      ({ headers := fun _ => some .epoch2,
         staging := fun bid =>
           if bid = 0 then
             some { header := { consensus_hash := 5, block_id := 0, parent_block_id := 1 },
                    txs := [1, 2, 3] }
           else none,
         ser := fun b => b.txs,
         max_message_len := 10 } : ChainState).max_message_len :=
  ⟨by decide,
   C8_total_bytes_bounded
     { headers := fun _ => some .epoch2,
       staging := fun bid =>
         if bid = 0 then
           some { header := { consensus_hash := 5, block_id := 0, parent_block_id := 1 },
                  txs := [1, 2, 3] }
         else none,
       ser := fun b => b.txs,
       max_message_len := 10 }
     (by intro bid h hh; simp at hh) (by decide) 2 (NakamotoTenureStream.new 0 5 1)
     { header := { consensus_hash := 5, block_id := 0, parent_block_id := 1 },
       txs := [1, 2, 3] }
     [[1, 2, 3]] 1 (by decide) rfl rfl (by decide) rfl⟩

/-- Counterexample to C8 as claimed: a start block larger than the
configured maximum is streamed in full by `NakamotoTenureStream::new` and the
chunk generator, so the total emitted bytes exceed the maximum. -/
theorem C8_max_len_counterexample :
    runTenureStream
      { headers := fun _ => some .epoch2,
        staging := fun bid =>
          if bid = 0 then
            some { header := { consensus_hash := 5, block_id := 0, parent_block_id := 1 },
                   txs := List.replicate 12 0 }
          else none,
        ser := fun b => b.txs,
        max_message_len := 10 } 2 (NakamotoTenureStream.new 0 5 1) =
      .ok [List.replicate 12 (0 : Nat)] ∧
    ¬ ((List.flatten [List.replicate 12 (0 : Nat)]).length ≤
      ({ headers := fun _ => some .epoch2,
         staging := fun bid =>
           if bid = 0 then
             some { header := { consensus_hash := 5, block_id := 0, parent_block_id := 1 },
                    txs := List.replicate 12 0 }
           else none,
         ser := fun b => b.txs,
         max_message_len := 10 } : ChainState).max_message_len) :=
  ⟨rfl, by decide⟩
